import Mathlib

/-!
Verification development for a MongoDB-style document store layered on an
ordered key-value substrate.  The definitions below are a shallow embedding,
in Lean, of the TypeScript `Collection` implementation (filter matching,
update operators, index planner, projection, and the KV write coordinator).

Modelling conventions:
* JS values are the inductive `Value`.  JS numbers are modelled as integers
  (every concrete value exercised here is integral); `undefined` is modelled
  as `Option.none` at the places the engine can observe it.
* `ObjectId` is modelled by its canonical hex string: the engine only ever
  uses byte equality and `toString`, both of which coincide with string
  equality on the hex form.
* JS objects are association lists in property insertion order; engine-built
  objects never carry duplicate keys.
* String functions (`split`, lexicographic `<`, decimal rendering/parsing)
  are re-implemented over character lists so that closed terms evaluate
  inside the kernel; they agree with the JS originals on the fragment used.
-/

/-- Split a character list at every occurrence of the separator, mirroring
JS `String.prototype.split` with a single-character separator. -/
def chSplit (sep : Char) : List Char → List (List Char)
  | [] => [[]]
  | c :: cs =>
    let r := chSplit sep cs
    if c = sep then [] :: r
    else
      match r with
      | [] => [[c]]
      | h :: t => (c :: h) :: t

/-- JS `path.split(".")`. -/
def splitDot (s : String) : List String :=
  (chSplit '.' s.data).map String.mk

/-- Lexicographic strict order on character lists (JS string `<` by code
unit; identical to code point order on the basic plane). -/
def chLt : List Char → List Char → Bool
  | [], [] => false
  | [], _ :: _ => true
  | _ :: _, [] => false
  | a :: as, b :: bs => if a = b then chLt as bs else decide (a < b)

/-- JS string `a < b`. -/
def sLt (a b : String) : Bool := chLt a.data b.data

/-- JS string `a <= b`. -/
def sLe (a b : String) : Bool := sLt a b || a == b

/-- Decimal digits of a natural number (fuel-driven so that it reduces
definitionally; fuel `n + 1` always suffices). -/
def natToChars (fuel n : Nat) : List Char :=
  match fuel with
  | 0 => []
  | fuel + 1 =>
    let d := Char.ofNat (48 + n % 10)
    if n < 10 then [d] else natToChars fuel (n / 10) ++ [d]

/-- Decimal rendering of a natural number (JS `String(n)`). -/
def natToStr (n : Nat) : String := String.mk (natToChars (n + 1) n)

/-- Decimal rendering of an integer (JS `String(i)` for integral numbers). -/
def intToStr (i : Int) : String :=
  if i < 0 then String.mk ('-' :: natToChars (i.natAbs + 1) i.natAbs)
  else natToStr i.natAbs

/-- Accumulating decimal parser over characters; `none` when a non-digit is
met. -/
def chToNat (acc : Nat) : List Char → Option Nat
  | [] => some acc
  | c :: cs =>
      if decide ('0' ≤ c) && decide (c ≤ '9') then
        chToNat (acc * 10 + (c.toNat - 48)) cs
      else none

/-- JS regex test `/^\d+$/` followed by `parseInt`: a non-empty all-digit
string parsed as an array index. -/
def strToIndex (s : String) : Option Nat :=
  match s.data with
  | [] => none
  | l => chToNat 0 l

/-- JS `Number(string)` restricted to the integral fragment: the empty
string converts to `0`, optional sign followed by digits parses as an
integer, anything else is NaN (`none`).  Fractional, hex and whitespace
forms never arise in this development. -/
def strToNumJS (s : String) : Option Int :=
  match s.data with
  | [] => some (0 : Int)
  | '-' :: rest => (chToNat 0 rest).map (fun n => -(n : Int))
  | l => (chToNat 0 l).map (fun n => (n : Int))

/-- JS runtime values as stored in documents and filters.  `vNum` carries an
integer (see module comment); `vDate` carries epoch milliseconds; `vOid` the
hex string of a BSON ObjectId. -/
inductive Value where
  | vNull
  | vBool (b : Bool)
  | vNum (n : Int)
  | vStr (s : String)
  | vDate (ms : Int)
  | vOid (id : String)
  | vArr (xs : List Value)
  | vObj (fs : List (String × Value))

/-- JS truthiness. -/
def truthy : Value → Bool
  | .vNull => false
  | .vBool b => b
  | .vNum n => !(n == 0)
  | .vStr s => !(s == "")
  | .vDate _ => true
  | .vOid _ => true
  | .vArr _ => true
  | .vObj _ => true

/-- JS `typeof` (note `typeof null === "object"`). -/
def typeofStr : Value → String
  | .vNull => "object"
  | .vBool _ => "boolean"
  | .vNum _ => "number"
  | .vStr _ => "string"
  | .vDate _ => "object"
  | .vOid _ => "object"
  | .vArr _ => "object"
  | .vObj _ => "object"

/-- Whether `typeof v === "object"` (true for null, dates, object ids,
arrays and plain objects). -/
def typeofIsObj (v : Value) : Bool := typeofStr v == "object"

/-- Truthy object-like value: the predicate `item && typeof item ===
"object"` used by the path resolver's fan-out test. -/
def isObjTruthy (v : Value) : Bool :=
  match v with
  | .vDate _ => true
  | .vOid _ => true
  | .vArr _ => true
  | .vObj _ => true
  | _ => false

/-- First-match association lookup (JS property read on a plain object;
engine-built objects have unique keys). -/
def lookupF {α : Type} : List (String × α) → String → Option α
  | [], _ => none
  | (k, v) :: fs, key => if k = key then some v else lookupF fs key

/-- JS property write: replace the first binding in place, else append (JS
objects keep insertion order and updates keep the original slot). -/
def assocSet {α : Type} : List (String × α) → String → α → List (String × α)
  | [], k, v => [(k, v)]
  | (k0, v0) :: fs, k, v =>
      if k0 = k then (k0, v) :: fs else (k0, v0) :: assocSet fs k v

/-- JS `key in obj` for a plain object (own property test). -/
def hasKeyF {α : Type} (fs : List (String × α)) (k : String) : Bool :=
  (lookupF fs k).isSome

/-- JS own-enumerable `Object.keys` restricted to plain objects; for every
other value the keys the engine subsequently tests (all starting with `$`)
are never present, so the empty list is observationally exact. -/
def objKeys : Value → List String
  | .vObj fs => fs.map (·.1)
  | _ => []

/-- JS property get `v[k]`: field of a plain object, index or `length` of an
array.  Dates and object ids have no own properties (inherited methods are
functions, which the engine never stores), and property access on primitives
yields `undefined`. -/
def jsGetProp : Value → String → Option Value
  | .vObj fs, k => lookupF fs k
  | .vArr xs, k =>
      (match strToIndex k with
       | some i => xs.get? i
       | none => if k = "length" then some (.vNum xs.length) else none)
  | _, _ => none

/-- One step of `utils.getNestedValue`'s reduce: mirrors the source case
split on the current value being an array (with `$`/empty step, numeric
index, or fan-out over object elements) versus a non-null object. -/
def getStep (cur : Value) (part : String) : Option Value :=
  match cur with
  | .vArr xs =>
      if part = "$" || part = "" then some (.vArr xs)
      else
        match strToIndex part with
        | some i => xs.get? i
        | none =>
            if xs.any isObjTruthy then
              let vs := (xs.filter isObjTruthy).filterMap (fun it => jsGetProp it part)
              if vs.isEmpty then none else some (.vArr vs)
            else none
  | _ => if truthy cur && typeofIsObj cur then jsGetProp cur part else none

/-- Shallow embedding of `utils.getNestedValue(obj, path)`: split the dotted
path and reduce, returning `undefined` (`none`) as soon as the running value
is `undefined` or `null`. -/
def getNestedValue (v : Value) (path : String) : Option Value :=
  if truthy v = false then none
  else
    (splitDot path).foldl
      (fun acc part =>
        match acc with
        | none => none
        | some cur =>
            match cur with
            | .vNull => none
            | c => getStep c part)
      (some v)

/-- JS property assignment `cur[last] = v` (strict mode).  Plain objects
update in place or append; arrays accept an existing index or the index one
past the end (larger indices would create holes and assignments to `length`
or to non-index keys are not representable here, nor are expando properties
on dates/object ids — none of these arise in engine-built documents);
assignment to a property of a primitive throws `TypeError` (`none`). -/
def jsSetProp : Value → String → Value → Option Value
  | .vObj fs, k, v => some (.vObj (assocSet fs k v))
  | .vArr xs, k, v =>
      (match strToIndex k with
       | some i =>
           if i < xs.length then some (.vArr (xs.set i v))
           else if i = xs.length then some (.vArr (xs ++ [v]))
           else none
       | none => none)
  | _, _, _ => none

/-- Shallow embedding of `utils.setNestedValue` on pre-split path parts:
walk all parts but the last, creating an empty object where `part in
current` fails, then assign the last part.  Descending into a primitive (the
JS `in` test or the final assignment on a non-object) throws (`none`). -/
def setNested (cur : Value) : List String → Value → Option Value
  | [], _ => some cur
  | [last], v => jsSetProp cur last v
  | p :: rest, v =>
      match cur with
      | .vObj fs =>
          (match lookupF fs p with
           | some child => (setNested child rest v).map (fun c => .vObj (assocSet fs p c))
           | none => (setNested (.vObj []) rest v).map (fun c => .vObj (fs ++ [(p, c)])))
      | .vArr xs =>
          (match strToIndex p with
           | some i =>
               match xs.get? i with
               | some child => (setNested child rest v).map (fun c => .vArr (xs.set i c))
               | none =>
                   if i = xs.length then
                     (setNested (.vObj []) rest v).map (fun c => .vArr (xs ++ [c]))
                   else none
           | none => none)
      | _ => none

/-- Shallow embedding of `utils.setNestedValue(obj, path, value)`. -/
def setNestedValue (obj : Value) (path : String) (v : Value) : Option Value :=
  setNested obj (splitDot path) v

/-- Key/value pairs the engine's structural-equality object branch iterates:
`Object.keys` pairs for plain objects, index-string pairs for arrays, and no
own enumerable properties for dates and object ids. -/
def jsPairsCount : Value → Nat
  | .vObj fs => fs.length
  | .vArr xs => xs.length
  | _ => 0

/-- JS `Object.prototype.hasOwnProperty.call(b, k)`: own property test,
which for arrays also answers true for `length`. -/
def hasOwnProp : Value → String → Bool
  | .vObj fs, k => hasKeyF fs k
  | .vArr xs, k =>
      (match strToIndex k with
       | some i => decide (i < xs.length)
       | none => k == "length")
  | _, _ => false

/-- JS strict equality `a === b` restricted to the cases the engine's
`isEqual` reaches it in: primitives compare by value; distinct objects
compare unequal by reference (the structural branches that follow subsume
the reference-equal case). -/
def primEq : Value → Value → Bool
  | .vNull, .vNull => true
  | .vBool a, .vBool b => a == b
  | .vNum a, .vNum b => a == b
  | .vStr a, .vStr b => a == b
  | _, _ => false

mutual
/-- Shallow embedding of `Collection.isEqual`, written as the value of the
source's sequential tests (ObjectId pair, Date pair, `===`, the loose null
test, the `typeof` test, the elementwise array branch, the own-key object
branch) at each pair of value kinds.  Kind pairs of different `typeof`
(and null against anything else) are unequal; primitives compare by value;
arrays compare by length and elements; a plain object or array against
another object-kind value compares `Object.keys` counts and then each own
key; dates and object ids (no own enumerable keys) compare equal to any
object-kind value without own keys.  (The `RegExp` case of the source is
unreachable: regexes are not document values.) -/
def isEqual : Value → Value → Bool
  | .vOid a, .vOid b => a == b
  | .vDate a, .vDate b => a == b
  | .vNull, .vNull => true
  | .vBool a, .vBool b => a == b
  | .vNum a, .vNum b => a == b
  | .vStr a, .vStr b => a == b
  | .vArr xs, .vArr ys => xs.length == ys.length && isEqualL xs ys
  | .vArr xs, .vObj gs => xs.length == gs.length && isEqualIdx 0 xs (.vObj gs)
  | .vArr xs, .vDate d => xs.length == 0 && isEqualIdx 0 xs (.vDate d)
  | .vArr xs, .vOid i => xs.length == 0 && isEqualIdx 0 xs (.vOid i)
  | .vObj fs, .vArr ys => fs.length == ys.length && isEqualF fs (.vArr ys)
  | .vObj fs, .vObj gs => fs.length == gs.length && isEqualF fs (.vObj gs)
  | .vObj fs, .vDate d => fs.length == 0 && isEqualF fs (.vDate d)
  | .vObj fs, .vOid i => fs.length == 0 && isEqualF fs (.vOid i)
  | .vDate _, .vOid _ => true
  | .vOid _, .vDate _ => true
  | .vDate _, .vArr ys => ys.length == 0
  | .vDate _, .vObj gs => gs.length == 0
  | .vOid _, .vArr ys => ys.length == 0
  | .vOid _, .vObj gs => gs.length == 0
  | _, _ => false
termination_by structural a _ => a

/-- Elementwise equality of two JS arrays (lengths already equal). -/
def isEqualL : List Value → List Value → Bool
  | [], _ => true
  | _ :: _, [] => false
  | x :: xs, y :: ys => isEqual x y && isEqualL xs ys
termination_by structural xs _ => xs

/-- Own-key comparison loop of `isEqual` for a plain-object left operand:
every key of `a` must be an own property of `b` with an equal value. -/
def isEqualF : List (String × Value) → Value → Bool
  | [], _ => true
  | (k, av) :: fs, b =>
      (hasOwnProp b k &&
        (match jsGetProp b k with
         | some bv => isEqual av bv
         | none => false)) && isEqualF fs b
termination_by structural fs _ => fs

/-- Own-key comparison loop of `isEqual` for an array left operand (its
`Object.keys` are the index strings). -/
def isEqualIdx : Nat → List Value → Value → Bool
  | _, [], _ => true
  | i, x :: xs, b =>
      (hasOwnProp b (natToStr i) &&
        (match jsGetProp b (natToStr i) with
         | some bv => isEqual x bv
         | none => false)) && isEqualIdx (i + 1) xs b
termination_by structural _ xs _ => xs
end

/-- `isEqual` lifted to possibly-`undefined` operands as the engine calls it
(`undefined === undefined` is true; `x == null` short-circuits a defined
versus undefined comparison to false). -/
def isEqualO : Option Value → Option Value → Bool
  | none, none => true
  | some a, some b => isEqual a b
  | _, _ => false

/-- Stand-in for `Date.prototype.toISOString`: the development never
serializes a date, so the rendering (decimal epoch milliseconds) only has to
be some fixed total function of the timestamp. -/
def isoOf (ms : Int) : String := intToStr ms

mutual
/-- JS `String(v)` / `Array.prototype.toString` as the engine can reach it:
decimal numbers, identity on strings, `"[object Object]"` for plain objects,
comma-joined elements for arrays (null elements render empty), the hex
string for object ids.  Dates render via `isoOf` (the engine never converts
a date to a string on the paths modelled here). -/
def jsToString : Value → String
  | .vNull => "null"
  | .vBool b => if b then "true" else "false"
  | .vNum n => intToStr n
  | .vStr s => s
  | .vDate ms => isoOf ms
  | .vOid id => id
  | .vArr xs => jsToStringArr xs
  | .vObj _ => "[object Object]"

/-- Comma join of array elements for `Array.prototype.toString`; null
renders as the empty string. -/
def jsToStringArr : List Value → String
  | [] => ""
  | [x] => (match x with | .vNull => "" | x => jsToString x)
  | x :: xs =>
      (match x with | .vNull => "" | x => jsToString x) ++ "," ++ jsToStringArr xs
end

/-- Quote a string as JSON does, escaping backslash and double quote (the
control-character escapes of full JSON never arise here). -/
def jsonQuote (s : String) : String :=
  "\"" ++ String.mk (s.data.foldr
    (fun c acc =>
      if c = '\\' then '\\' :: '\\' :: acc
      else if c = '"' then '\\' :: '"' :: acc
      else c :: acc) []) ++ "\""

mutual
/-- JS `JSON.stringify` on document values: dates serialize through their
`toJSON` (ISO string), BSON object ids through theirs (the hex string). -/
def jsonStringify : Value → String
  | .vNull => "null"
  | .vBool b => if b then "true" else "false"
  | .vNum n => intToStr n
  | .vStr s => jsonQuote s
  | .vDate ms => jsonQuote (isoOf ms)
  | .vOid id => jsonQuote id
  | .vArr xs => "[" ++ jsonArr xs ++ "]"
  | .vObj fs => "\x7b" ++ jsonFields fs ++ "\x7d"

/-- Comma-joined JSON array elements. -/
def jsonArr : List Value → String
  | [] => ""
  | [x] => jsonStringify x
  | x :: xs => jsonStringify x ++ "," ++ jsonArr xs

/-- Comma-joined JSON object members. -/
def jsonFields : List (String × Value) → String
  | [] => ""
  | [(k, v)] => jsonQuote k ++ ":" ++ jsonStringify v
  | (k, v) :: fs => jsonQuote k ++ ":" ++ jsonStringify v ++ "," ++ jsonFields fs
end

/-- A Deno KV key part as the engine produces it for index entries: a
string, a number, or a boolean (the return type of `serializeIndexValue`). -/
inductive KvScalar where
  | ks (s : String)
  | kn (n : Int)
  | kb (b : Bool)

/-- Equality of KV key parts (Deno KV key parts compare by type and
value). -/
def kvEq : KvScalar → KvScalar → Bool
  | .ks a, .ks b => a == b
  | .kn a, .kn b => a == b
  | .kb a, .kb b => a == b
  | _, _ => false

/-- JS `String(x)` on a serialized key part. -/
def kvToString : KvScalar → String
  | .ks s => s
  | .kn n => intToStr n
  | .kb b => if b then "true" else "false"

/-- Shallow embedding of `Collection.serializeIndexValue`: dates to ISO
strings, object ids to hex strings, null or undefined to the empty string,
primitives kept as-is, everything else JSON-serialized. -/
def serializeIndexValue : Option Value → KvScalar
  | some (.vDate ms) => .ks (isoOf ms)
  | some (.vOid id) => .ks id
  | none => .ks ""
  | some .vNull => .ks ""
  | some (.vStr s) => .ks s
  | some (.vNum n) => .kn n
  | some (.vBool b) => .kb b
  | some v => .ks (jsonStringify v)

/-- ToPrimitive with number hint as JS relational comparison applies it:
numbers and dates (epoch milliseconds) are numeric, strings stay strings,
booleans and null convert numerically, plain objects and arrays fall to
their string forms, BSON object ids to their hex strings. -/
def toPrimNum : Value → Sum Int String
  | .vNum n => .inl n
  | .vDate ms => .inl ms
  | .vStr s => .inr s
  | .vBool b => .inl (if b then 1 else 0)
  | .vNull => .inl 0
  | .vOid id => .inr id
  | .vObj _ => .inr "[object Object]"
  | .vArr xs => .inr (jsToString (.vArr xs))

/-- JS abstract relational comparison: both primitives strings compares
lexicographically, otherwise both sides convert to numbers; `none` encodes
an undefined comparison (a NaN operand), which makes every relational
operator false. -/
def jsRelCmp (a b : Value) : Option Ordering :=
  match toPrimNum a, toPrimNum b with
  | .inr x, .inr y =>
      some (if sLt x y then .lt else if x == y then .eq else .gt)
  | pa, pb =>
      match (match pa with | .inl n => some n | .inr s => strToNumJS s),
            (match pb with | .inl n => some n | .inr s => strToNumJS s) with
      | some m, some n => some (compare m n)
      | _, _ => none

/-- JS `a > b`. -/
def jsGtB (a b : Value) : Bool :=
  match jsRelCmp a b with | some .gt => true | _ => false

/-- JS `a >= b`. -/
def jsGeB (a b : Value) : Bool :=
  match jsRelCmp a b with | some .gt => true | some .eq => true | _ => false

/-- JS `a < b`. -/
def jsLtB (a b : Value) : Bool :=
  match jsRelCmp a b with | some .lt => true | _ => false

/-- JS `a <= b`. -/
def jsLeB (a b : Value) : Bool :=
  match jsRelCmp a b with | some .lt => true | some .eq => true | _ => false

/-- Shallow embedding of `Collection.isComparable`: numbers, strings and
dates (each operand tested individually). -/
def isComparableV : Value → Bool
  | .vNum _ => true
  | .vStr _ => true
  | .vDate _ => true
  | _ => false

/-- `isComparable` on a possibly-undefined operand (undefined is not
comparable). -/
def isComparable : Option Value → Bool
  | some v => isComparableV v
  | none => false

/-- JS `typeof` on a possibly-undefined value. -/
def typeofO : Option Value → String
  | none => "undefined"
  | some w => typeofStr w

/-- The guard excluding fan-out in `matchesCondition`: the condition is a
truthy object carrying one of `$all`, `$size`, `$elemMatch`, `$nin` (the JS
`in` test; only a plain object can carry such keys). -/
def hasSpecialKey (cond : Value) : Bool :=
  truthy cond && typeofIsObj cond &&
    (match cond with
     | .vObj fs =>
         hasKeyF fs "$all" || hasKeyF fs "$size" || hasKeyF fs "$elemMatch" ||
           hasKeyF fs "$nin"
     | _ => false)

/-- The non-recursive operator cases of `matchesCondition`'s switch
(`$eq`, the four ordered operators with their `isComparable` guards, `$ne`,
`$in`, `$nin`, `$exists`, `$all`, `$size`, `$type`); `none` means the
operator key is `$elemMatch`, `$not`, or unrecognized (the recursive
cases, handled by the caller). -/
def mcSimpleOp (op : String) (v : Option Value) (val : Value) : Option Bool :=
  if op = "$eq" then some (isEqualO v (some val))
  else if op = "$gt" then
    some (if !(isComparable v) || !(isComparableV val) then false
          else (match v with | some w => jsGtB w val | none => false))
  else if op = "$gte" then
    some (if !(isComparable v) || !(isComparableV val) then false
          else (match v with | some w => jsGeB w val | none => false))
  else if op = "$lt" then
    some (if !(isComparable v) || !(isComparableV val) then false
          else (match v with | some w => jsLtB w val | none => false))
  else if op = "$lte" then
    some (if !(isComparable v) || !(isComparableV val) then false
          else (match v with | some w => jsLeB w val | none => false))
  else if op = "$ne" then some (!(isEqualO v (some val)))
  else if op = "$in" then
    some (match val with
          | .vArr ys => ys.any (fun y => isEqualO v (some y))
          | _ => false)
  else if op = "$nin" then
    some (match v with
          | some (.vArr xs) =>
              (match val with
               | .vArr ys => !(xs.any (fun it => ys.any (fun y => isEqual it y)))
               | _ => false)
          | v =>
              (match val with
               | .vArr ys => !(ys.any (fun y => isEqualO v (some y)))
               | _ => false))
  else if op = "$exists" then
    some (match val with | .vBool b => b == v.isSome | _ => false)
  else if op = "$all" then
    some (match v, val with
          | some (.vArr xs), .vArr ys => ys.all (fun y => xs.any (fun it => isEqual it y))
          | _, _ => false)
  else if op = "$size" then
    some (match v, val with
          | some (.vArr xs), .vNum n => (xs.length : Int) == n
          | _, _ => false)
  else if op = "$type" then
    some (match val with
          | .vStr t =>
              if t = "null" then (match v with | some .vNull => true | _ => false)
              else if t = "array" then (match v with | some (.vArr _) => true | _ => false)
              else if t = "date" then (match v with | some (.vDate _) => true | _ => false)
              else if t = "objectId" then (match v with | some (.vOid _) => true | _ => false)
              else typeofO v == t
          | _ => false)
  else none

mutual
/-- Shallow embedding of `Collection.matchesCondition(value, condition)`:
ObjectId pair, array-value fan-out (unless the condition is an object
carrying `$all`/`$size`/`$elemMatch`/`$nin`), exact array match,
operator-object iteration, and direct equality, in source order. -/
def matchesCondition (v : Option Value) (cond : Value) : Bool :=
  match v, cond with
  | some (.vOid a), .vOid b => a == b
  | some (.vArr xs), .vArr ys =>
      xs.length == ys.length && (xs.zip ys).all (fun p => isEqual p.1 p.2)
  | some (.vArr xs), cond =>
      if hasSpecialKey cond then mcCondObj (some (.vArr xs)) cond
      else mcAny xs cond
  | v, cond => mcCondObj v cond
termination_by (sizeOf cond, 1 + sizeOf v)
decreasing_by all_goals (simp_wf <;> omega)

/-- Steps 4 and 5 of `matchesCondition`: a truthy object condition iterates
its `Object.entries` (fields of a plain object, index entries of an array,
nothing for dates and object ids), anything else compares directly with
`isEqual`. -/
def mcCondObj (v : Option Value) (cond : Value) : Bool :=
  match cond with
  | .vObj fs => mcEntries v fs
  | .vArr ys => mcIdxEntries v 0 ys
  | .vDate _ => true
  | .vOid _ => true
  | cond => isEqualO v (some cond)
termination_by (sizeOf cond, sizeOf v)
decreasing_by all_goals (simp_wf <;> omega)

/-- Fan-out: `value.some(item => matchesCondition(item, condition))`. -/
def mcAny : List Value → Value → Bool
  | [], _ => false
  | x :: xs, cond => matchesCondition (some x) cond || mcAny xs cond
termination_by xs cond => (sizeOf cond, 2 + sizeOf xs)
decreasing_by all_goals (simp_wf <;> omega)

/-- Operator entry loop of `matchesCondition` (the `switch` over
`Object.entries(condition)` combined with `every`).  The non-recursive
operator cases live in `mcSimpleOp` (the operator keys are pairwise
distinct, so splitting the switch preserves it); `$elemMatch`, `$not` and
the default field-path case recurse. -/
def mcEntries (v : Option Value) : List (String × Value) → Bool
  | [] => true
  | (op, val) :: rest =>
      ((mcSimpleOp op v val).getD
        (if op = "$elemMatch" then
           (match v with
            | some (.vArr xs) => mcElem xs val
            | _ => false)
         else if op = "$not" then
           (if typeofStr val == "object" then !(matchesCondition v val)
            else !(isEqualO v (some val)))
         else
           (match v with
            | some (.vObj fs) => matchesCondition (getNestedValue (.vObj fs) op) val
            | some (.vDate ms) => matchesCondition (getNestedValue (.vDate ms) op) val
            | some (.vOid id) => matchesCondition (getNestedValue (.vOid id) op) val
            | _ => false))) && mcEntries v rest
termination_by fs => (sizeOf fs, 1 + sizeOf v)
decreasing_by all_goals (simp_wf <;> omega)

/-- `$elemMatch`: some element equals the operand (non-object operand) or
satisfies it as a condition. -/
def mcElem : List Value → Value → Bool
  | [], _ => false
  | x :: xs, val =>
      (if typeofStr val == "object" then matchesCondition (some x) val
       else isEqual x val) || mcElem xs val
termination_by xs val => (sizeOf val, 2 + sizeOf xs)
decreasing_by all_goals (simp_wf <;> omega)

/-- Operator entry loop when the condition is an array: `Object.entries`
yields index-string keys, which are never operator names, so every entry
takes the default (field-path) branch of the switch. -/
def mcIdxEntries (v : Option Value) (i : Nat) : List Value → Bool
  | [] => true
  | y :: ys =>
      (match v with
       | some (.vObj fs) => matchesCondition (getNestedValue (.vObj fs) (natToStr i)) y
       | some (.vDate ms) => matchesCondition (getNestedValue (.vDate ms) (natToStr i)) y
       | some (.vOid id) => matchesCondition (getNestedValue (.vOid id) (natToStr i)) y
       | _ => false) && mcIdxEntries v (i + 1) ys
termination_by ys => (sizeOf ys, 1 + sizeOf v)
decreasing_by all_goals (simp_wf <;> omega)
end

/-- Field-path entry of `matchesFilter`: resolve the dotted path, handle a
literal `null` condition strictly, otherwise delegate to
`matchesCondition`. -/
def mfField (doc : Value) (key : String) (cond : Value) : Bool :=
  let value := getNestedValue doc key
  match cond with
  | .vNull => (match value with | some .vNull => true | _ => false)
  | cond => matchesCondition value cond

/-- Entries of an array used as a sub-filter (`Object.entries` gives
index-string keys, never the `$`-combinators). -/
def mfIdx (doc : Value) : Nat → List Value → Bool
  | _, [] => true
  | i, x :: xs => mfField doc (natToStr i) x && mfIdx doc (i + 1) xs

/-- Entries of a string used as a sub-filter (`Object.entries` of a string
enumerates its characters with index-string keys). -/
def mfStrIdx (doc : Value) : Nat → List Char → Bool
  | _, [] => true
  | i, c :: cs =>
      mfField doc (natToStr i) (.vStr (String.mk [c])) && mfStrIdx doc (i + 1) cs

mutual
/-- Shallow embedding of `Collection.matchesFilter`: iterate the filter
entries, treating `$or`/`$and`/`$nor` (with array operands) and `$not`
(with object operand) specially and everything else as a field
condition. -/
def matchesFilterEntries (doc : Value) : List (String × Value) → Bool
  | [] => true
  | (key, cond) :: rest =>
      (match cond with
       | .vArr subs =>
           if key = "$or" then (subs.isEmpty || mfAny doc subs)
           else if key = "$and" then (subs.isEmpty || mfAll doc subs)
           else if key = "$nor" then (subs.isEmpty || !(mfAny doc subs))
           else if key = "$not" then !(mfIdx doc 0 subs)
           else mfField doc key (.vArr subs)
       | cond =>
           if key = "$not" && truthy cond && typeofIsObj cond then !(mfSub doc cond)
           else mfField doc key cond) && matchesFilterEntries doc rest

/-- `$or`/`$nor` sub-filter disjunction. -/
def mfAny (doc : Value) : List Value → Bool
  | [] => false
  | s :: ss => mfSub doc s || mfAny doc ss

/-- `$and` sub-filter conjunction. -/
def mfAll (doc : Value) : List Value → Bool
  | [] => true
  | s :: ss => mfSub doc s && mfAll doc ss

/-- A sub-filter value as `matchesFilter` receives it recursively: its
`Object.entries` drive the loop (empty for primitives, dates and ids;
index/character entries for arrays and strings). -/
def mfSub (doc : Value) : Value → Bool
  | .vObj fs => matchesFilterEntries doc fs
  | .vArr xs => mfIdx doc 0 xs
  | .vStr s => mfStrIdx doc 0 s.data
  | _ => true
end

/-- Shallow embedding of `Collection.matchesFilter(doc, filter)` on a filter
given as its entry list. -/
def matchesFilter (doc : Value) (filter : List (String × Value)) : Bool :=
  matchesFilterEntries doc filter

/-- JS `delete current[last]` as `$unset` reaches it: remove an own field of
a plain object; on arrays `delete` would leave a hole (not representable,
and unreachable for the documents handled here) and on dates/object ids it
is a no-op, as it is on any non-object (the source guards with `typeof
current === "object"`). -/
def jsDelete (cur : Value) (last : String) : Value :=
  match cur with
  | .vObj fs => .vObj (fs.filter (fun p => !(p.1 == last)))
  | cur => cur

/-- Write back a modified child at an existing property during the `$unset`
walk (the source mutates through an alias; rebuilding along the descent path
is its functional image).  The walk only descends through properties that
exist, so the missing cases return the value unchanged. -/
def setChildAt (cur : Value) (p : String) (c : Value) : Value :=
  match cur with
  | .vObj fs => .vObj (assocSet fs p c)
  | .vArr xs =>
      (match strToIndex p with
       | some i => .vArr (xs.set i c)
       | none => .vArr xs)
  | cur => cur

/-- The `$unset` walk of `applyUpdateOperators`: step through all parts but
the last while `current[part]` is truthy; as soon as a step is falsy or
missing the loop breaks, and the delete then runs against the node the walk
stopped at (this mirrors the source's `break` — it does not skip the
delete). -/
def unsetGo (cur : Value) : List String → String → Value
  | [], last => jsDelete cur last
  | p :: rest, last =>
      match jsGetProp cur p with
      | some child =>
          if truthy child then setChildAt cur p (unsetGo child rest last)
          else jsDelete cur last
      | none => jsDelete cur last

/-- One `$unset` entry: split the path, walk the leading parts, delete the
final part at the node reached. -/
def applyUnsetOne (doc : Value) (path : String) : Value :=
  match (splitDot path).reverse with
  | [] => doc
  | last :: revInit => unsetGo doc revInit.reverse last

/-- Whether resolving these path parts takes the fan-out branch of the path
resolver at some step.  In that case `$push`/`$addToSet` mutate a freshly
built array, so the document is left unchanged; paths that re-select inside
a fan-out result (and would alias an original subvalue) do not occur in the
states considered here and are likewise modelled as unchanged. -/
def fanOnPath (v : Option Value) : List String → Bool
  | [] => false
  | p :: rest =>
      match v with
      | none => false
      | some .vNull => false
      | some (.vArr xs) =>
          if p = "$" || p = "" then fanOnPath (some (.vArr xs)) rest
          else
            match strToIndex p with
            | some i => fanOnPath (xs.get? i) rest
            | none => xs.any isObjTruthy
      | some c => fanOnPath (getStep c p) rest

/-- Replace the value a direct (fan-out-free) path resolves to, rebuilding
the spine (the functional image of mutating through the resolver's alias; a
`$`/empty step aliases the array itself). -/
def replaceAt (cur : Value) : List String → Value → Option Value
  | [], neu => some neu
  | p :: rest, neu =>
      match cur with
      | .vObj fs =>
          (match lookupF fs p with
           | some child => (replaceAt child rest neu).map (fun c => .vObj (assocSet fs p c))
           | none => none)
      | .vArr xs =>
          if p = "$" || p = "" then replaceAt (.vArr xs) rest neu
          else
            (match strToIndex p with
             | some i =>
                 match xs.get? i with
                 | some child => (replaceAt child rest neu).map (fun c => .vArr (xs.set i c))
                 | none => none
             | none => none)
      | _ => none

/-- One `$push` entry: fetch the resolved value; when it is an array the
push lands in that array (through the resolver's alias — lost when the
resolution fanned out), otherwise a fresh array is stored at the path and
the operand pushed into it, so the path ends up holding exactly the
operand. -/
def applyPushOne (doc : Value) (path : String) (v : Value) : Option Value :=
  match getNestedValue doc path with
  | some (.vArr a) =>
      if fanOnPath (some doc) (splitDot path) then some doc
      else replaceAt doc (splitDot path) (.vArr (a ++ [v]))
  | _ => setNested doc (splitDot path) (.vArr [v])

/-- One `$addToSet` entry: like `$push` but only when no element of the
array already equals the operand (per the engine's `isEqual`). -/
def applyAddToSetOne (doc : Value) (path : String) (v : Value) : Option Value :=
  match getNestedValue doc path with
  | some (.vArr a) =>
      if a.any (fun it => isEqual it v) then some doc
      else if fanOnPath (some doc) (splitDot path) then some doc
      else replaceAt doc (splitDot path) (.vArr (a ++ [v]))
  | _ => setNested doc (splitDot path) (.vArr [v])

/-- One `$pull` entry: when the path resolves to an array, store back the
elements not equal to the operand via `setNestedValue`; otherwise a
no-op. -/
def applyPullOne (doc : Value) (path : String) (v : Value) : Option Value :=
  match getNestedValue doc path with
  | some (.vArr a) =>
      setNested doc (splitDot path) (.vArr (a.filter (fun it => !(isEqual it v))))
  | _ => some doc

/-- The `(getNestedValue(...) as number) || 0` read shared by `$inc` and
`$mul`: a falsy or missing current value counts as zero. -/
def numBase (doc : Value) (path : String) : Value :=
  match getNestedValue doc path with
  | some w => if truthy w then w else .vNum 0
  | none => .vNum 0

/-- JS `base + n` for an integer operand: numbers (and `true`) add, strings
and other objects concatenate through their string forms.  A date base
would concatenate its locale string — not representable, so `none` (never
reached by the engine's own documents). -/
def jsAddNum (base : Value) (n : Int) : Option Value :=
  match base with
  | .vNum m => some (.vNum (m + n))
  | .vBool _ => some (.vNum (1 + n))
  | .vStr s => some (.vStr (s ++ intToStr n))
  | .vArr xs => some (.vStr (jsToString (.vArr xs) ++ intToStr n))
  | .vObj _ => some (.vStr ("[object Object]" ++ intToStr n))
  | .vOid id => some (.vStr (id ++ intToStr n))
  | .vDate _ => none
  | .vNull => some (.vNum n)

/-- JS `ToNumber` of a value (via ToPrimitive); `none` is NaN. -/
def jsToNumberV (v : Value) : Option Int :=
  match toPrimNum v with
  | .inl n => some n
  | .inr s => strToNumJS s

/-- One `$inc` entry. -/
def applyIncOne (doc : Value) (path : String) (n : Int) : Option Value :=
  match jsAddNum (numBase doc path) n with
  | some res => setNested doc (splitDot path) res
  | none => none

/-- One `$mul` entry (a NaN product is not representable: `none`). -/
def applyMulOne (doc : Value) (path : String) (n : Int) : Option Value :=
  match jsToNumberV (numBase doc path) with
  | some m => setNested doc (splitDot path) (.vNum (m * n))
  | none => none

/-- One `$min` entry: replace when the field is missing or strictly greater
than the operand under raw JS comparison. -/
def applyMinOne (doc : Value) (path : String) (v : Value) : Option Value :=
  match getNestedValue doc path with
  | none => setNested doc (splitDot path) v
  | some w => if jsGtB w v then setNested doc (splitDot path) v else some doc

/-- One `$max` entry: replace when the field is missing or strictly smaller
than the operand under raw JS comparison. -/
def applyMaxOne (doc : Value) (path : String) (v : Value) : Option Value :=
  match getNestedValue doc path with
  | none => setNested doc (splitDot path) v
  | some w => if jsLtB w v then setNested doc (splitDot path) v else some doc

/-- An update expression: the operator clauses of `UpdateOperator<T>` with
their entries in JS iteration (insertion) order.  An absent clause and an
empty clause are observationally identical in the source, so both are the
empty list. -/
structure UpdateOp where
  uset : List (String × Value) := []
  uunset : List String := []
  uinc : List (String × Int) := []
  umul : List (String × Int) := []
  upush : List (String × Value) := []
  upull : List (String × Value) := []
  uaddToSet : List (String × Value) := []
  uminOp : List (String × Value) := []
  umaxOp : List (String × Value) := []

/-- Fold an Option-producing per-entry operation over a clause's entries. -/
def foldUpd {β : Type} (step : Value → β → Option Value) :
    Option Value → List β → Option Value
  | none, _ => none
  | some d, [] => some d
  | some d, e :: es => foldUpd step (step d e) es

/-- Shallow embedding of `Collection.applyUpdateOperators`: the operator
groups applied in source order (`$set`, `$unset`, `$inc`, `$mul`, `$push`,
`$pull`, `$addToSet`, `$min`, `$max`); `none` models a thrown
`TypeError`. -/
def applyUpdateOperators (doc : Value) (u : UpdateOp) : Option Value :=
  let s1 := foldUpd (fun d e => setNestedValue d e.1 e.2) (some doc) u.uset
  let s2 := foldUpd (fun d p => some (applyUnsetOne d p)) s1 u.uunset
  let s3 := foldUpd (fun d e => applyIncOne d e.1 e.2) s2 u.uinc
  let s4 := foldUpd (fun d e => applyMulOne d e.1 e.2) s3 u.umul
  let s5 := foldUpd (fun d e => applyPushOne d e.1 e.2) s4 u.upush
  let s6 := foldUpd (fun d e => applyPullOne d e.1 e.2) s5 u.upull
  let s7 := foldUpd (fun d e => applyAddToSetOne d e.1 e.2) s6 u.uaddToSet
  let s8 := foldUpd (fun d e => applyMinOne d e.1 e.2) s7 u.uminOp
  foldUpd (fun d e => applyMaxOne d e.1 e.2) s8 u.umaxOp

/-- A projection entry value: `0 | 1 | boolean`. -/
inductive ProjVal where
  | pnum (n : Int)
  | pbool (b : Bool)

/-- Strict test `v === 1`. -/
def projIsOne : ProjVal → Bool
  | .pnum n => n == 1
  | _ => false

/-- Strict test `v === 0`. -/
def projIsZero : ProjVal → Bool
  | .pnum n => n == 0
  | _ => false

/-- The include-mode test `v === 1 || v === true`. -/
def projInclude : ProjVal → Bool
  | .pnum n => n == 1
  | .pbool b => b

/-- Result of `applyProjection`: a document, the mixed include/exclude
error, or a type error thrown while writing a nested path. -/
inductive ProjResult where
  | ok (d : Value)
  | mixError
  | typeError

/-- Include-mode loop of `applyProjection`: add each projection path whose
value is strictly `1` (or the `_id` path) when it resolves on the
document. -/
def projIncludeFold (doc : Value) :
    List (String × ProjVal) → List (String × Value) → Option (List (String × Value))
  | [], acc => some acc
  | (path, pv) :: rest, acc =>
      if projIsOne pv || path == "_id" then
        match getNestedValue doc path with
        | some val =>
            (match setNested (.vObj acc) (splitDot path) val with
             | some (.vObj acc2) => projIncludeFold doc rest acc2
             | _ => none)
        | none => projIncludeFold doc rest acc
      else projIncludeFold doc rest acc

/-- Exclude-mode loop of `applyProjection`: copy every document field whose
key is not `_id` and whose projection entry is not strictly `0`. -/
def projExcludeFold (proj : List (String × ProjVal)) :
    List (String × Value) → List (String × Value) → List (String × Value)
  | [], acc => acc
  | (k, v) :: fs, acc =>
      let excluded :=
        match lookupF proj k with
        | some pv => projIsZero pv
        | none => false
      if !excluded && !(k == "_id") then projExcludeFold proj fs (assocSet acc k v)
      else projExcludeFold proj fs acc

/-- Shallow embedding of `Collection.applyProjection`: an empty projection
returns the document; projecting both a strict `1` and a strict `0` on
non-`_id` keys is the mixed-mode error; the result always starts from
`{ _id: doc._id }`; include mode (some non-`_id` value is `1` or `true`)
keeps only the strictly-`1` paths, exclude mode copies all fields whose
entry is not strictly `0`. -/
def applyProjection (doc : Value) (proj : List (String × ProjVal)) : ProjResult :=
  if proj.isEmpty then .ok doc
  else
    let values := (proj.filter (fun p => !(p.1 == "_id"))).map (·.2)
    if !values.isEmpty && values.any projIsOne && values.any projIsZero then .mixError
    else
      let result0 : List (String × Value) :=
        match jsGetProp doc "_id" with
        | some idv => [("_id", idv)]
        | none => []
      if values.any projInclude then
        match projIncludeFold doc proj result0 with
        | some fs => .ok (.vObj fs)
        | none => .typeError
      else
        match doc with
        | .vObj fs => .ok (.vObj (projExcludeFold proj fs result0))
        | _ => .ok (.vObj result0)

/-- Strict equality `aVal === bVal` as the sort comparator uses it:
undefined equals undefined, primitives by value, objects only by reference
(modelled as false — the structural comparisons that follow decide the
order as the source then does). -/
def strictEqO : Option Value → Option Value → Bool
  | none, none => true
  | some a, some b => primEq a b
  | _, _ => false

/-- Loose `x == null` (null or undefined). -/
def looseNull : Option Value → Bool
  | none => true
  | some .vNull => true
  | _ => false

/-- One field of `Collection.sortDocuments`'s comparator: `none` means the
loop continues with the next sort field.  ObjectId pairs return immediately
(ties included); the byte-array comparison of the source is modelled on the
hex strings. -/
def cmpField (a b : Value) (field : String) (dir : Int) : Option Int :=
  let aVal := getNestedValue a field
  let bVal := getNestedValue b field
  if strictEqO aVal bVal then none
  else
    match aVal, bVal with
    | some (.vOid x), some (.vOid y) =>
        some (dir * (if x == y then 0 else if sLt y x then 1 else -1))
    | aVal, bVal =>
        if looseNull aVal then some dir
        else if looseNull bVal then some (-dir)
        else
          match aVal, bVal with
          | some x, some y =>
              if jsLtB x y then some (-dir)
              else if jsGtB x y then some dir
              else none
          | _, _ => none

/-- The full comparator over the sort specification. -/
def sortCmp (so : List (String × Int)) (a b : Value) : Int :=
  match so with
  | [] => 0
  | (field, dir) :: rest =>
      match cmpField a b field dir with
      | some r => r
      | none => sortCmp rest a b

/-- Stable insertion with the comparator (modern JS `Array.prototype.sort`
is stable; insertion sort realizes the same permutation for a consistent
comparator). -/
def sortInsert (so : List (String × Int)) (x : Value) : List Value → List Value
  | [] => [x]
  | y :: ys => if sortCmp so y x > 0 then x :: y :: ys else y :: sortInsert so x ys

/-- Shallow embedding of `Collection.sortDocuments`. -/
def sortDocuments (docs : List Value) (so : List (String × Int)) : List Value :=
  docs.foldl (fun acc d => sortInsert so d acc) []

/-- Options of a find call (absent entries are `none`; the source treats an
explicitly-undefined entry identically). -/
structure FindOpts where
  sort : Option (List (String × Int)) := none
  limit : Option Nat := none
  skip : Option Nat := none
  projection : Option (List (String × ProjVal)) := none

/-- Map `applyProjection` over results, propagating a thrown error. -/
def projectAll (proj : List (String × ProjVal)) : List Value → Option (List Value)
  | [] => some []
  | d :: ds =>
      match applyProjection d proj with
      | .ok r => (projectAll proj ds).map (fun rs => r :: rs)
      | _ => none

/-- Shallow embedding of `Collection.applyFindOptions`: sort when given,
then `slice(skip || 0, limit ? skip + limit : undefined)` (a zero limit is
falsy and means no upper end), then projection; `none` models a projection
error. -/
def applyFindOptions (results : List Value) (o : FindOpts) : Option (List Value) :=
  let r1 := match o.sort with
    | some so => sortDocuments results so
    | none => results
  let skip0 := match o.skip with
    | some k => k
    | none => 0
  let r2 := match o.limit with
    | some l => if l != 0 then (r1.take (skip0 + l)).drop skip0 else r1.drop skip0
    | none => r1.drop skip0
  match o.projection with
  | some p => projectAll p r2
  | none => some r2

/-- An index entry under `(collection, "__idx__", field, serialized-value,
id)` whose stored value is `{ _id: id }`. -/
structure IndexEntry where
  field : String
  sval : KvScalar
  docId : String

/-- Declared index metadata: the spec's fields (with directions) and the
`unique`/`sparse` options. -/
structure IndexInfoM where
  keyFields : List (String × Int)
  unique : Bool := false
  sparse : Bool := false

/-- The KV state of one collection, split by key shape: primary documents
under `(collection, idString)` (the stored `_id` field is the id string),
index metadata under `("__indexes__", collection, name)`, and index entries
under `(collection, "__idx__", ...)`.  Lists are in KV key order; the split
is exact because the three key shapes are disjoint. -/
structure KVState where
  docs : List (String × Value) := []
  indexMeta : List (String × IndexInfoM) := []
  indexEntries : List IndexEntry := []

/-- Reading a stored document: `doc._id = deserializeObjectId(doc._id)`
turns the stored id string back into an ObjectId (engine-written documents
always store the id as a string; anything else is returned unchanged). -/
def withOidId (stored : Value) : Value :=
  match stored with
  | .vObj fs =>
      (match lookupF fs "_id" with
       | some (.vStr sid) => .vObj (assocSet fs "_id" (.vOid sid))
       | _ => .vObj fs)
  | stored => stored

/-- `doc._id.toString()` (used for KV keys and deduplication); engine
documents always carry an `_id`. -/
def docIdStr (doc : Value) : String :=
  match jsGetProp doc "_id" with
  | some v => jsToString v
  | none => ""

/-- Candidate loop shared by the index scans: resolve each entry's document
by id (`findOne({_id})`), keep it when the full filter matches, and dedupe
by the document's id string, preserving scan order. -/
def scanHits (s : KVState) (filter : List (String × Value)) :
    List IndexEntry → List String → List Value
  | [], _ => []
  | e :: es, seen =>
      match lookupF s.docs e.docId with
      | some stored =>
          if matchesFilter (withOidId stored) filter &&
              !(seen.contains (docIdStr (withOidId stored))) then
            withOidId stored :: scanHits s filter es (docIdStr (withOidId stored) :: seen)
          else scanHits s filter es seen
      | none => scanHits s filter es seen

/-- Shallow embedding of `Collection.isRangeQuery`. -/
def isRangeQuery : Option Value → Bool
  | some .vNull => false
  | some c =>
      if typeofIsObj c then
        (objKeys c).any (fun k => k == "$gt" || k == "$gte" || k == "$lt" || k == "$lte")
      else false
  | none => false

/-- Shallow embedding of `Collection.getQueryValue`: a literal (or null, or
undefined) is itself; an operator object yields its `$eq` operand, or the
first element of its `$in` operand, or the object itself. -/
def getQueryValue : Option Value → Option Value
  | none => none
  | some .vNull => some .vNull
  | some (.vObj fs) =>
      if hasKeyF fs "$eq" then lookupF fs "$eq"
      else if hasKeyF fs "$in" then
        (match lookupF fs "$in" with
         | some (.vStr st) => (st.data.get? 0).map (fun ch => .vStr (String.mk [ch]))
         | some inv => jsGetProp inv "0"
         | none => none)
      else some (.vObj fs)
  | some c => if typeofIsObj c then some c else some c

/-- JS truthiness of a possibly-undefined value. -/
def truthyO : Option Value → Bool
  | some v => truthy v
  | none => false

/-- JS `a || b` on possibly-undefined values. -/
def jsOrV (a b : Option Value) : Option Value := if truthyO a then a else b

/-- The per-entry bound check of `findUsingIndexRange`: the serialized
values are compared as strings (`String(...)`), the lower operator is `>`
exactly when `$gt` is truthy, the upper `<` exactly when `$lt` is
truthy. -/
def rangeEntryMatches (cond : Value) (e : IndexEntry) : Bool :=
  let start := jsOrV (jsGetProp cond "$gt") (jsGetProp cond "$gte")
  let stop := jsOrV (jsGetProp cond "$lt") (jsGetProp cond "$lte")
  let m1 :=
    match start with
    | none => true
    | some sv =>
        let strIndexValue := kvToString e.sval
        let strStartValue := kvToString (serializeIndexValue (some sv))
        if truthyO (jsGetProp cond "$gt") then !(sLe strIndexValue strStartValue)
        else !(sLt strIndexValue strStartValue)
  if m1 then
    match stop with
    | none => true
    | some ev =>
        let strIndexValue := kvToString e.sval
        let strEndValue := kvToString (serializeIndexValue (some ev))
        if truthyO (jsGetProp cond "$lt") then !(sLe strEndValue strIndexValue)
        else !(sLt strEndValue strIndexValue)
  else false

/-- Shallow embedding of `Collection.findUsingIndexRange`: prefix-scan the
field's index entries, keep those whose serialized value passes the string
bound checks, fetch and re-verify each document, dedupe, then apply the
find options. -/
def findUsingIndexRange (s : KVState) (field : String) (cond : Value)
    (fullFilter : List (String × Value)) (opts : FindOpts) : Option (List Value) :=
  let hits := (s.indexEntries.filter (fun e => e.field == field)).filter (rangeEntryMatches cond)
  applyFindOptions (scanHits s fullFilter hits []) opts

/-- Shallow embedding of `Collection.canUseIndexForQuery`. -/
def canUseIndexForQuery (spec : List (String × Int)) (filter : List (String × Value)) : Bool :=
  match spec.map (fun p => p.1) with
  | [field] =>
      hasKeyF filter field &&
        (match lookupF filter field with
         | some .vNull => false
         | some c =>
             !(typeofIsObj c) ||
               (objKeys c).any (fun k =>
                 k == "$eq" || k == "$gt" || k == "$gte" || k == "$lt" || k == "$lte" ||
                   k == "$in")
         | none => false)
  | [] => hasKeyF filter "undefined"
  | firstField :: restFields => hasKeyF filter firstField && restFields.all (hasKeyF filter)

/-- Shallow embedding of `Collection.findUsableIndex`: the first declared
index (in metadata key order) usable for the filter. -/
def findUsableIndex (s : KVState) (filter : List (String × Value)) : Option IndexInfoM :=
  match s.indexMeta.find? (fun m => canUseIndexForQuery m.2.keyFields filter) with
  | some m => some m.2
  | none => none

/-- Shallow embedding of `Collection.findUsingIndex`: a single-field index
dispatches to the range scan or an exact prefix scan on the serialized
query value; a compound index prefix-scans on the first field with the
`String(...)` form of its serialized filter value. -/
def findUsingIndex (s : KVState) (info : IndexInfoM) (filter : List (String × Value))
    (opts : FindOpts) : Option (List Value) :=
  match info.keyFields.map (fun p => p.1) with
  | [field] =>
      let cond := lookupF filter field
      if isRangeQuery cond then
        (match cond with
         | some c => findUsingIndexRange s field c filter opts
         | none => findUsingIndexRange s field .vNull filter opts)
      else
        let sval := serializeIndexValue (getQueryValue cond)
        let hits := s.indexEntries.filter (fun e => e.field == field && kvEq e.sval sval)
        applyFindOptions (scanHits s filter hits []) opts
  | indexFields =>
      let firstField := match indexFields with | f :: _ => f | [] => "undefined"
      let firstVal := lookupF filter firstField
      let sval := KvScalar.ks (kvToString (serializeIndexValue firstVal))
      let hits := s.indexEntries.filter (fun e => e.field == firstField && kvEq e.sval sval)
      applyFindOptions (scanHits s filter hits []) opts

/-- Shallow embedding of `Collection.findWithoutIndex`: scan the collection
prefix, skip entries whose key is not the two-element document shape (the
docs table), revive each `_id`, filter, and apply the options. -/
def findWithoutIndex (s : KVState) (filter : List (String × Value)) (opts : FindOpts) :
    Option (List Value) :=
  applyFindOptions
    ((s.docs.map (fun p => withOidId p.2)).filter (fun d => matchesFilter d filter)) opts

/-- Shallow embedding of `Collection.find`: plan via `findUsableIndex`,
falling back to the full scan. -/
def find (s : KVState) (filter : List (String × Value)) (opts : FindOpts) :
    Option (List Value) :=
  match findUsableIndex s filter with
  | some info => findUsingIndex s info filter opts
  | none => findWithoutIndex s filter opts

/-- Shallow embedding of `Collection.findOne`: a filter whose `_id` is an
ObjectId instance short-circuits to a direct key lookup (ignoring all other
filter entries and the options); otherwise `find` with `{limit: 1,
...options}` and the first result. -/
def findOne (s : KVState) (filter : List (String × Value)) (opts : FindOpts) :
    Option (Option Value) :=
  match lookupF filter "_id" with
  | some (.vOid i) => some ((lookupF s.docs i).map withOidId)
  | _ =>
      match find s filter { opts with limit := some ((opts.limit).getD 1) } with
      | some results => some results.head?
      | none => none

/-- The counts of an update result. -/
structure UpdRes where
  matchedCount : Nat
  modifiedCount : Nat
  upsertedId : Option String
  upsertedCount : Nat

/-- Store a document with its `_id` serialized to the id string
(`{...doc, _id: serializeObjectId(_id)}`). -/
def setIdStr (d : Value) (i : String) : Value :=
  match d with
  | .vObj fs => .vObj (assocSet fs "_id" (.vStr i))
  | d => d

/-- `{...doc, _id}` with the ObjectId instance (the document handed to the
index maintenance). -/
def setIdOid (d : Value) (i : String) : Value :=
  match d with
  | .vObj fs => .vObj (assocSet fs "_id" (.vOid i))
  | d => d

/-- The upsert arm of `updateOne` once the new id is fixed: apply the
update to `{_id}`, check the primary key is absent (the atomic
`versionstamp: null` check), and append the stored document. -/
def upsertWith (s : KVState) (u : UpdateOp) (newId : String) : Option (KVState × UpdRes) :=
  match applyUpdateOperators (.vObj [("_id", .vOid newId)]) u with
  | some newDoc =>
      (match lookupF s.docs newId with
       | some _ => none
       | none =>
           some ({ s with docs := s.docs ++ [(newId, setIdStr newDoc newId)] },
                 ⟨0, 1, some newId, 1⟩))
  | none => none

/-- Shallow embedding of `Collection.updateOne`.  `genId` stands for the
fresh ObjectId `generateId()` would mint (generation is nondeterministic in
the source); a truthy non-ObjectId `filter._id` flows through `toString`
exactly as the source's unchecked cast does.  The atomic commits always
pass in this sequential model; `none` models a thrown error. -/
def updateOne (s : KVState) (filter : List (String × Value)) (u : UpdateOp)
    (upsert : Bool) (genId : String) : Option (KVState × UpdRes) :=
  match findOne s filter {} with
  | none => none
  | some none =>
      if upsert then
        (match lookupF filter "_id" with
         | some v => if truthy v then upsertWith s u (jsToString v) else upsertWith s u genId
         | none => upsertWith s u genId)
      else some (s, ⟨0, 0, none, 0⟩)
  | some (some doc) =>
      match applyUpdateOperators doc u with
      | some updatedDoc =>
          some ({ s with docs :=
                    (assocSet s.docs (docIdStr doc) (setIdStr updatedDoc (docIdStr doc))) },
                ⟨1, 1, none, 0⟩)
      | none => none

/-- Shallow embedding of `Collection.deleteOne`: resolve the candidate via
`findOne`, then an atomic batch containing only the version check and the
delete of the primary key. -/
def deleteOne (s : KVState) (filter : List (String × Value)) : Option (KVState × Nat) :=
  match findOne s filter {} with
  | none => none
  | some none => some (s, 0)
  | some (some doc) =>
      some ({ s with docs := s.docs.filter (fun p => !(p.1 == docIdStr doc)) }, 1)

/-- Field loop of `Collection.updateIndexEntry`: for each index field,
serialize the document's value, run the unique prefix check (a truthy
existing id different from the document's fails), and commit the entry in
its own atomic operation.  The boolean is false when a duplicate aborted
the loop (entries already committed stay). -/
def updateIndexFields (s : KVState) (doc : Value) (docId : String) (unique : Bool) :
    List String → KVState × Bool
  | [] => (s, true)
  | f :: fs =>
      let sval := serializeIndexValue (getNestedValue doc f)
      if unique && s.indexEntries.any
          (fun e => e.field == f && kvEq e.sval sval && !(e.docId == "") &&
            !(e.docId == docId)) then
        (s, false)
      else
        updateIndexFields
          { s with indexEntries := s.indexEntries ++ [⟨f, sval, docId⟩] } doc docId unique fs

/-- Shallow embedding of `Collection.updateIndexEntry`. -/
def updateIndexEntry (s : KVState) (doc : Value) (spec : List (String × Int))
    (unique : Bool) : KVState × Bool :=
  updateIndexFields s doc (docIdStr doc) unique (spec.map (fun p => p.1))

/-- The per-index loop of `insertOne` over the declared index metadata. -/
def insertMetasFold (s : KVState) (doc : Value) :
    List (String × IndexInfoM) → KVState × Bool
  | [] => (s, true)
  | (_, m) :: ms =>
      let r := updateIndexEntry s doc m.keyFields m.unique
      if r.2 then insertMetasFold r.1 doc ms else (r.1, false)

/-- Shallow embedding of `Collection.insertOne`: reject a non-object, take
the given `_id` (via `toString`) or the fresh `genId`, reject a duplicate
primary key, write every index entry (each in its own atomic commit),
then insert the primary document in a separate atomic batch.  The returned
id is `none` when an error was thrown (index entries already written
remain, as in the source). -/
def insertOne (s : KVState) (doc : Value) (genId : String) : KVState × Option String :=
  if !(truthy doc && typeofIsObj doc) then (s, none)
  else
    let newId :=
      match jsGetProp doc "_id" with
      | some v => if truthy v then jsToString v else genId
      | none => genId
    match lookupF s.docs newId with
    | some _ => (s, none)
    | none =>
        let r := insertMetasFold s (setIdOid doc newId) s.indexMeta
        if r.2 then
          ({ r.1 with docs := r.1.docs ++ [(newId, setIdStr doc newId)] }, some newId)
        else (r.1, none)

/-- Options of a count call. -/
structure CountOpts where
  limit : Option Int := none
  skip : Option Int := none

/-- Shallow embedding of `Collection.countDocuments`: without options, the
length of the find result; with a limit or skip, the source's
`Math.min(Math.max(0, length - start), end - start)` arithmetic (which can
go negative when skipping past the end with no limit, as in the
source). -/
def countDocuments (s : KVState) (filter : List (String × Value)) (c : CountOpts) :
    Option Int :=
  match c.limit, c.skip with
  | none, none => (find s filter {}).map (fun docs => (docs.length : Int))
  | _, _ =>
      (find s filter {}).map (fun results =>
        let start := c.skip.getD 0
        let stop :=
          match c.limit with
          | some l => start + l
          | none => (results.length : Int)
        min (max 0 ((results.length : Int) - start)) (stop - start))

/-- Shallow embedding of `Collection.estimatedDocumentCount`: count every
KV entry under the collection prefix — the primary documents and all
`(collection, "__idx__", ...)` index entries (index metadata lives under
the separate `"__indexes__"` top-level key). -/
def estimatedDocumentCount (s : KVState) : Nat :=
  s.docs.length + s.indexEntries.length

/-- Shallow embedding of `Collection.dropIndex`: delete the metadata entry
`("__indexes__", collection, name)` — and nothing else. -/
def dropIndex (s : KVState) (name : String) : KVState :=
  { s with indexMeta := s.indexMeta.filter (fun p => !(p.1 == name)) }

/-- A collection state with one declared single-field index on `name` and
nothing stored yet. -/
def exC1_s0 : KVState := { indexMeta := [("name_1", { keyFields := [("name", 1)] })] }

/-- The state after `insertOne({name: "x"})` with fresh id `"a"`: the
document and its `name` index entry. -/
def exC1_s1 : KVState := (insertOne exC1_s0 (.vObj [("name", .vStr "x")]) "a").1

/-- A state holding one document with `age` 100, a declared `age` index and
its entry (serialized value: the number 100). -/
def exC2_s : KVState :=
  { docs := [("a", .vObj [("_id", .vStr "a"), ("age", .vNum 100)])],
    indexMeta := [("age_1", { keyFields := [("age", 1)] })],
    indexEntries := [{ field := "age", sval := .kn 100, docId := "a" }] }

/-- The filter `{age: {$gte: 25}}`. -/
def exC2_filter : List (String × Value) := [("age", .vObj [("$gte", .vNum 25)])]

/-- The filter `{age: {$gte: 10}}`. -/
def exC2_filter10 : List (String × Value) := [("age", .vObj [("$gte", .vNum 10)])]

/-- The stored document of `exC2_s` as reads revive it. -/
def exC2_doc : Value := .vObj [("_id", .vOid "a"), ("age", .vNum 100)]

/-- The document `{_id, a: 1}` of the `$unset` bug input. -/
def exC3_doc : Value := .vObj [("_id", .vOid "x"), ("a", .vNum 1)]

/-- The document `{_id, t: [1]}`. -/
def exC5_doc : Value := .vObj [("_id", .vOid "x"), ("t", .vArr [.vNum 1])]

/-- The `$push` operand `{$each: []}`. -/
def exC5_each : Value := .vObj [("$each", .vArr [])]

/-- A state with one document, one declared `age` index and its entry. -/
def exC6_s : KVState :=
  { docs := [("a", .vObj [("_id", .vStr "a"), ("age", .vNum 30)])],
    indexMeta := [("age_1", { keyFields := [("age", 1)] })],
    indexEntries := [{ field := "age", sval := .kn 30, docId := "a" }] }

/-- The update `{$set: {x: 1}}`. -/
def exC7_u : UpdateOp := { uset := [("x", .vNum 1)] }

/-- The document the upsert of `{_id: "aa"}` with `{$set: {x: 1}}`
synthesizes before storage. -/
def exC7_newDoc : Value := .vObj [("_id", .vOid "aa"), ("x", .vNum 1)]

/-- The document `{_id, x: 1}`. -/
def exC8_doc : Value := .vObj [("_id", .vOid "a"), ("x", .vNum 1)]

/-- A state with one document and one index entry under the collection
prefix (declared index on `age`). -/
def exC9_s : KVState :=
  { docs := [("a", .vObj [("_id", .vStr "a"), ("age", .vNum 30)])],
    indexMeta := [("age_1", { keyFields := [("age", 1)] })],
    indexEntries := [{ field := "age", sval := .kn 30, docId := "a" }] }

/-- A state with one document whose `name` is `"z"`. -/
def exC10_s : KVState :=
  { docs := [("a", .vObj [("_id", .vStr "a"), ("name", .vStr "z")])] }

/-- The filter `{_id: ObjectId("a"), name: "y"}` — the `name` clause does
not hold of the stored document. -/
def exC10_filter : List (String × Value) := [("_id", .vOid "a"), ("name", .vStr "y")]

/-- A possibly-failed update stage whose document (when present) is still a
plain object. -/
def PObj (a : Option Value) : Prop :=
  a = none ∨ ∃ gs, a = some (.vObj gs)

/-- The leading part of a dotted path. -/
def headPart (path : String) : String :=
  match splitDot path with
  | h :: _ => h
  | [] => ""

/-- The state left by `deleteOne({_id: "a"})` on `exC1_s1`: the document is
gone, the index entry referencing it is still there. -/
def exC1_s2 : KVState :=
  { docs := [], indexMeta := exC1_s0.indexMeta,
    indexEntries := [{ field := "name", sval := .ks "x", docId := "a" }] }

theorem applyFindOptions_id (r : List Value) : applyFindOptions r {} = some r := by
  simp [applyFindOptions]

theorem lookupF_append_fresh {α : Type} (xs : List (String × α)) (k : String) (v : α)
    (h : lookupF xs k = none) : lookupF (xs ++ [(k, v)]) k = some v := by
  induction xs with
  | nil => simp [lookupF]
  | cons p ps ih =>
      obtain ⟨k0, v0⟩ := p
      by_cases hk : k0 = k
      · simp only [lookupF, if_pos hk] at h
        exact absurd h (by simp)
      · simp only [lookupF, if_neg hk] at h
        simpa only [List.cons_append, lookupF, if_neg hk] using ih h

theorem lookupF_mem {α : Type} {xs : List (String × α)} {k : String} {v : α}
    (h : lookupF xs k = some v) : v ∈ xs.map Prod.snd := by
  induction xs with
  | nil => simp [lookupF] at h
  | cons p ps ih =>
      obtain ⟨k0, v0⟩ := p
      by_cases hk : k0 = k
      · simp only [lookupF, if_pos hk] at h
        cases h
        simp
      · simp only [lookupF, if_neg hk] at h
        simp [ih h]

theorem lookupF_assocSet_self {α : Type} (fs : List (String × α)) (k : String) (v : α) :
    lookupF (assocSet fs k v) k = some v := by
  induction fs with
  | nil => simp [assocSet, lookupF]
  | cons p ps ih =>
      by_cases hk : p.1 = k
      · simp [assocSet, hk, lookupF]
      · simp [assocSet, hk, lookupF, ih]

theorem lookupF_assocSet_other {α : Type} (fs : List (String × α)) (k k0 : String) (v : α)
    (h : k ≠ k0) : lookupF (assocSet fs k v) k0 = lookupF fs k0 := by
  induction fs with
  | nil => simp [assocSet, lookupF, h]
  | cons p ps ih =>
      by_cases hk : p.1 = k
      · simp [assocSet, hk, lookupF, h]
      · simp [assocSet, hk, lookupF, ih]

theorem lookupF_append_of_some {α : Type} {xs : List (String × α)} {k : String} {v : α}
    (ys : List (String × α)) (h : lookupF xs k = some v) :
    lookupF (xs ++ ys) k = some v := by
  induction xs with
  | nil => simp [lookupF] at h
  | cons p ps ih =>
      by_cases hk : p.1 = k
      · simp only [lookupF, if_pos hk] at h
        simp [List.cons_append, lookupF, hk, h]
      · simp only [lookupF, if_neg hk] at h
        simp [List.cons_append, lookupF, hk, ih h]

theorem canUseIndexForQuery_empty (spec : List (String × Int)) :
    canUseIndexForQuery spec [] = false := by
  unfold canUseIndexForQuery
  rcases h : spec.map (fun p => p.1) with _ | ⟨f, _ | ⟨g, r⟩⟩ <;>
    simp [h, hasKeyF, lookupF]

theorem findUsableIndex_empty (s : KVState) : findUsableIndex s [] = none := by
  unfold findUsableIndex
  have h : ∀ ms : List (String × IndexInfoM),
      ms.find? (fun m => canUseIndexForQuery m.2.keyFields []) = none := by
    intro ms
    induction ms with
    | nil => rfl
    | cons m rest ih => simp [List.find?, canUseIndexForQuery_empty, ih]
  rw [h]

theorem matchesFilter_nil (d : Value) : matchesFilter d [] = true := rfl

theorem filter_matchesFilter_nil (l : List Value) :
    l.filter (fun d => matchesFilter d []) = l := by
  induction l with
  | nil => rfl
  | cons x xs ih => simp [List.filter, matchesFilter_nil, ih]

theorem scanHits_sub (s : KVState) (filter : List (String × Value)) :
    ∀ (es : List IndexEntry) (seen : List String) (d : Value),
      d ∈ scanHits s filter es seen →
      d ∈ (s.docs.map (fun p => withOidId p.2)).filter (fun x => matchesFilter x filter) := by
  intro es
  induction es with
  | nil => intro seen d h; simp [scanHits] at h
  | cons e rest ih =>
      intro seen d h
      unfold scanHits at h
      split at h
      · rename_i stored hl
        split at h
        · rename_i hc
          rcases List.mem_cons.mp h with h1 | h1
          · subst h1
            have hm : matchesFilter (withOidId stored) filter = true :=
              ((Bool.and_eq_true _ _).mp hc).1
            refine List.mem_filter.mpr ⟨?_, hm⟩
            have hsm : stored ∈ s.docs.map Prod.snd := lookupF_mem hl
            rcases List.mem_map.mp hsm with ⟨p, hp, hps⟩
            exact List.mem_map.mpr ⟨p, hp, by rw [hps]⟩
          · exact ih _ _ h1
        · exact ih _ _ h
      · exact ih _ _ h

theorem foldUpd_none {β : Type} (step : Value → β → Option Value) :
    ∀ es : List β, foldUpd step none es = none := by
  intro es
  cases es <;> rfl

theorem setNested_obj : ∀ (parts : List String) (fs : List (String × Value)) (v d : Value),
    setNested (.vObj fs) parts v = some d → ∃ gs, d = .vObj gs := by
  intro parts
  match parts with
  | [] => intro fs v d h; exact ⟨fs, (Option.some.inj h).symm⟩
  | [last] =>
      intro fs v d h
      simp only [setNested, jsSetProp] at h
      exact ⟨assocSet fs last v, (Option.some.inj h).symm⟩
  | p :: q :: rest =>
      intro fs v d h
      simp only [setNested] at h
      cases hl : lookupF fs p with
      | some child =>
          rw [hl] at h
          rcases Option.map_eq_some'.mp h with ⟨c, _, hc⟩
          exact ⟨assocSet fs p c, hc.symm⟩
      | none =>
          rw [hl] at h
          rcases Option.map_eq_some'.mp h with ⟨c, _, hc⟩
          exact ⟨fs ++ [(p, c)], hc.symm⟩

theorem unsetGo_obj (parts : List String) (last : String) (fs : List (String × Value)) :
    ∃ gs, unsetGo (.vObj fs) parts last = .vObj gs := by
  cases parts with
  | nil => exact ⟨fs.filter (fun p => !(p.1 == last)), rfl⟩
  | cons p rest =>
      simp only [unsetGo, jsGetProp]
      cases hl : lookupF fs p with
      | none => exact ⟨fs.filter (fun q => !(q.1 == last)), rfl⟩
      | some child =>
          by_cases ht : truthy child = true
          · simp only [ht, if_pos, setChildAt]
            exact ⟨assocSet fs p (unsetGo child rest last), rfl⟩
          · simp only [ht, Bool.false_eq_true, if_false, jsDelete]
            exact ⟨fs.filter (fun q => !(q.1 == last)), rfl⟩

theorem splitDot_ne_nil (s : String) : splitDot s ≠ [] := by
  unfold splitDot
  have h : ∀ l : List Char, chSplit '.' l ≠ [] := by
    intro l
    induction l with
    | nil => simp [chSplit]
    | cons c cs ih =>
        unfold chSplit
        by_cases hc : c = '.'
        · simp [hc]
        · simp only [if_neg hc]
          cases chSplit '.' cs <;> simp
  intro hmap
  exact h s.data (List.map_eq_nil_iff.mp hmap)

theorem replaceAt_obj : ∀ (parts : List String) (p : String) (rest : List String)
    (fs : List (String × Value)) (neu d : Value),
    parts = p :: rest →
    replaceAt (.vObj fs) parts neu = some d → ∃ gs, d = .vObj gs := by
  intro parts p rest fs neu d hp h
  subst hp
  simp only [replaceAt] at h
  cases hl : lookupF fs p with
  | some child =>
      rw [hl] at h
      rcases Option.map_eq_some'.mp h with ⟨c, _, hc⟩
      exact ⟨assocSet fs p c, hc.symm⟩
  | none => rw [hl] at h; cases h

theorem foldUpd_pobj {β : Type} (step : Value → β → Option Value)
    (hstep : ∀ (fs : List (String × Value)) (e : β), PObj (step (.vObj fs) e)) :
    ∀ (es : List β) (a : Option Value), PObj a → PObj (foldUpd step a es) := by
  intro es
  induction es with
  | nil =>
      rintro a (rfl | ⟨gs, rfl⟩)
      · exact Or.inl rfl
      · exact Or.inr ⟨gs, rfl⟩
  | cons e rest ih =>
      rintro a (rfl | ⟨gs, rfl⟩)
      · rw [foldUpd_none]; exact Or.inl rfl
      · show PObj (foldUpd step (step (.vObj gs) e) rest)
        exact ih _ (hstep gs e)

theorem pobj_setNested (fs : List (String × Value)) (parts : List String) (v : Value) :
    PObj (setNested (.vObj fs) parts v) := by
  cases h : setNested (.vObj fs) parts v with
  | none => exact Or.inl rfl
  | some d =>
      rcases setNested_obj parts fs v d h with ⟨gs, rfl⟩
      exact Or.inr ⟨gs, rfl⟩

theorem pobj_replaceAt (fs : List (String × Value)) (p : String) (rest : List String)
    (neu : Value) : PObj (replaceAt (.vObj fs) (p :: rest) neu) := by
  cases hr : replaceAt (.vObj fs) (p :: rest) neu with
  | none => exact Or.inl rfl
  | some d =>
      rcases replaceAt_obj (p :: rest) p rest fs neu d rfl hr with ⟨gs, rfl⟩
      exact Or.inr ⟨gs, rfl⟩

theorem pobj_push (fs : List (String × Value)) (path : String) (v : Value) :
    PObj (applyPushOne (.vObj fs) path v) := by
  unfold applyPushOne
  split
  · split
    · exact Or.inr ⟨fs, rfl⟩
    · rcases hsp : splitDot path with _ | ⟨p, rest⟩
      · exact absurd hsp (splitDot_ne_nil path)
      exact pobj_replaceAt fs p rest _
  · exact pobj_setNested fs (splitDot path) _

theorem pobj_addToSet (fs : List (String × Value)) (path : String) (v : Value) :
    PObj (applyAddToSetOne (.vObj fs) path v) := by
  unfold applyAddToSetOne
  split
  · split
    · exact Or.inr ⟨fs, rfl⟩
    · split
      · exact Or.inr ⟨fs, rfl⟩
      · rcases hsp : splitDot path with _ | ⟨p, rest⟩
        · exact absurd hsp (splitDot_ne_nil path)
        exact pobj_replaceAt fs p rest _
  · exact pobj_setNested fs (splitDot path) _

theorem pobj_pull (fs : List (String × Value)) (path : String) (v : Value) :
    PObj (applyPullOne (.vObj fs) path v) := by
  unfold applyPullOne
  split
  · exact pobj_setNested fs (splitDot path) _
  · exact Or.inr ⟨fs, rfl⟩

theorem pobj_inc (fs : List (String × Value)) (path : String) (n : Int) :
    PObj (applyIncOne (.vObj fs) path n) := by
  unfold applyIncOne
  split
  · exact pobj_setNested fs (splitDot path) _
  · exact Or.inl rfl

theorem pobj_mul (fs : List (String × Value)) (path : String) (n : Int) :
    PObj (applyMulOne (.vObj fs) path n) := by
  unfold applyMulOne
  split
  · exact pobj_setNested fs (splitDot path) _
  · exact Or.inl rfl

theorem pobj_min (fs : List (String × Value)) (path : String) (v : Value) :
    PObj (applyMinOne (.vObj fs) path v) := by
  unfold applyMinOne
  split
  · exact pobj_setNested fs (splitDot path) _
  · split
    · exact pobj_setNested fs (splitDot path) _
    · exact Or.inr ⟨fs, rfl⟩

theorem pobj_max (fs : List (String × Value)) (path : String) (v : Value) :
    PObj (applyMaxOne (.vObj fs) path v) := by
  unfold applyMaxOne
  split
  · exact pobj_setNested fs (splitDot path) _
  · split
    · exact pobj_setNested fs (splitDot path) _
    · exact Or.inr ⟨fs, rfl⟩

theorem pobj_unset (fs : List (String × Value)) (path : String) :
    PObj (some (applyUnsetOne (.vObj fs) path)) := by
  unfold applyUnsetOne
  split
  · exact Or.inr ⟨fs, rfl⟩
  · rename_i last revInit _
    rcases unsetGo_obj revInit.reverse last fs with ⟨gs, hg⟩
    exact Or.inr ⟨gs, by rw [hg]⟩

theorem applyUpdateOperators_obj (fs : List (String × Value)) (u : UpdateOp) (d : Value)
    (h : applyUpdateOperators (.vObj fs) u = some d) : ∃ gs, d = .vObj gs := by
  unfold applyUpdateOperators at h
  have h0 : PObj (some (Value.vObj fs)) := Or.inr ⟨fs, rfl⟩
  have h1 := foldUpd_pobj (fun d e => setNestedValue d e.1 e.2)
    (fun gs e => by exact pobj_setNested gs (splitDot e.1) e.2) u.uset _ h0
  have h2 := foldUpd_pobj (fun d p => some (applyUnsetOne d p))
    (fun gs p => by exact pobj_unset gs p) u.uunset _ h1
  have h3 := foldUpd_pobj (fun d e => applyIncOne d e.1 e.2)
    (fun gs e => by exact pobj_inc gs e.1 e.2) u.uinc _ h2
  have h4 := foldUpd_pobj (fun d e => applyMulOne d e.1 e.2)
    (fun gs e => by exact pobj_mul gs e.1 e.2) u.umul _ h3
  have h5 := foldUpd_pobj (fun d e => applyPushOne d e.1 e.2)
    (fun gs e => by exact pobj_push gs e.1 e.2) u.upush _ h4
  have h6 := foldUpd_pobj (fun d e => applyPullOne d e.1 e.2)
    (fun gs e => by exact pobj_pull gs e.1 e.2) u.upull _ h5
  have h7 := foldUpd_pobj (fun d e => applyAddToSetOne d e.1 e.2)
    (fun gs e => by exact pobj_addToSet gs e.1 e.2) u.uaddToSet _ h6
  have h8 := foldUpd_pobj (fun d e => applyMinOne d e.1 e.2)
    (fun gs e => by exact pobj_min gs e.1 e.2) u.uminOp _ h7
  have h9 := foldUpd_pobj (fun d e => applyMaxOne d e.1 e.2)
    (fun gs e => by exact pobj_max gs e.1 e.2) u.umaxOp _ h8
  rw [h] at h9
  rcases h9 with h9 | ⟨gs, hg⟩
  · cases h9
  · exact ⟨gs, Option.some.inj hg⟩

theorem lookupF_append_single_other {α : Type} (xs : List (String × α)) (p k0 : String)
    (c : α) (h : p ≠ k0) : lookupF (xs ++ [(p, c)]) k0 = lookupF xs k0 := by
  induction xs with
  | nil => simp [lookupF, h]
  | cons q qs ih =>
      obtain ⟨k1, v1⟩ := q
      by_cases hk : k1 = k0
      · simp [lookupF, hk]
      · simp only [List.cons_append, lookupF, if_neg hk]
        exact ih

theorem assocSet_fresh {α : Type} (xs : List (String × α)) (k : String) (v : α)
    (h : lookupF xs k = none) : assocSet xs k v = xs ++ [(k, v)] := by
  induction xs with
  | nil => simp [assocSet]
  | cons q qs ih =>
      obtain ⟨k1, v1⟩ := q
      by_cases hk : k1 = k
      · simp only [lookupF, if_pos hk] at h
        exact absurd h (by simp)
      · simp only [lookupF, if_neg hk] at h
        simp [assocSet, hk, ih h]

theorem setNested_keep_key (p : String) (rest : List String)
    (acc acc2 : List (String × Value)) (v : Value) (k0 : String) (hne : p ≠ k0)
    (h : setNested (.vObj acc) (p :: rest) v = some (.vObj acc2)) :
    lookupF acc2 k0 = lookupF acc k0 := by
  cases rest with
  | nil =>
      simp only [setNested, jsSetProp] at h
      have h2 : assocSet acc p v = acc2 := by
        have := Option.some.inj h
        exact congrArg (fun w => match w with | Value.vObj gs => gs | _ => []) this
      rw [← h2]
      exact lookupF_assocSet_other acc p k0 v hne
  | cons q qs =>
      simp only [setNested] at h
      cases hl : lookupF acc p with
      | some child =>
          rw [hl] at h
          rcases Option.map_eq_some'.mp h with ⟨c, _, hc⟩
          have h2 : assocSet acc p c = acc2 := by
            have := hc
            exact congrArg (fun w => match w with | Value.vObj gs => gs | _ => []) this
          rw [← h2]
          exact lookupF_assocSet_other acc p k0 c hne
      | none =>
          rw [hl] at h
          rcases Option.map_eq_some'.mp h with ⟨c, _, hc⟩
          have h2 : acc ++ [(p, c)] = acc2 := by
            have := hc
            exact congrArg (fun w => match w with | Value.vObj gs => gs | _ => []) this
          rw [← h2]
          exact lookupF_append_single_other acc p k0 c hne

theorem projIncludeFold_keep (doc : Value) (idv : Value)
    (hdoc : getNestedValue doc "_id" = some idv) :
    ∀ (proj : List (String × ProjVal)) (acc acc2 : List (String × Value)),
      (∀ pr ∈ proj, headPart pr.1 = "_id" → pr.1 = "_id") →
      lookupF acc "_id" = some idv →
      projIncludeFold doc proj acc = some acc2 →
      lookupF acc2 "_id" = some idv := by
  intro proj
  induction proj with
  | nil =>
      intro acc acc2 hh hacc h
      cases h
      exact hacc
  | cons pr rest ih =>
      intro acc acc2 hh hacc h
      obtain ⟨path, pv⟩ := pr
      simp only [projIncludeFold] at h
      by_cases hc : (projIsOne pv || path == "_id") = true
      · rw [if_pos hc] at h
        split at h
        · rename_i val hg
          split at h
          · rename_i acc1 hs
            by_cases hid : path = "_id"
            · subst hid
              rw [hdoc] at hg
              have hval : val = idv := (Option.some.inj hg).symm
              have hsd : splitDot "_id" = ["_id"] := rfl
              rw [hval, hsd] at hs
              simp only [setNested, jsSetProp] at hs
              have ha1 : assocSet acc "_id" idv = acc1 := by
                have := Option.some.inj hs
                exact congrArg (fun w => match w with | Value.vObj gs => gs | _ => []) this
              refine ih _ _ (fun q hq => hh q (List.mem_cons_of_mem _ hq)) ?_ h
              rw [← ha1]
              exact lookupF_assocSet_self acc "_id" idv
            · have hhp : headPart path ≠ "_id" := by
                intro hcon
                exact hid (hh (path, pv) (List.mem_cons_self _ _) hcon)
              rcases hsp : splitDot path with _ | ⟨p0, prest⟩
              · exact absurd hsp (splitDot_ne_nil path)
              have hp0 : p0 ≠ "_id" := by
                intro hcon
                apply hhp
                unfold headPart
                rw [hsp, hcon]
              rw [hsp] at hs
              have hkeep := setNested_keep_key p0 prest acc acc1 val "_id" hp0 hs
              refine ih _ _ (fun q hq => hh q (List.mem_cons_of_mem _ hq)) ?_ h
              rw [hkeep]
              exact hacc
          · cases h
        · exact ih _ _ (fun q hq => hh q (List.mem_cons_of_mem _ hq)) hacc h
      · rw [if_neg hc] at h
        exact ih _ _ (fun q hq => hh q (List.mem_cons_of_mem _ hq)) hacc h

theorem projExcludeFold_keep (proj : List (String × ProjVal)) (idv : Value) :
    ∀ (fs acc : List (String × Value)),
      lookupF acc "_id" = some idv →
      lookupF (projExcludeFold proj fs acc) "_id" = some idv := by
  intro fs
  induction fs with
  | nil => intro acc hacc; exact hacc
  | cons p ps ih =>
      intro acc hacc
      obtain ⟨k, v⟩ := p
      unfold projExcludeFold
      by_cases hid : k = "_id"
      · simp only [hid]
        simp only [beq_self_eq_true, Bool.not_true, Bool.and_false, Bool.false_eq_true,
          if_false]
        exact ih _ hacc
      · by_cases hex : (match lookupF proj k with
          | some pv => projIsZero pv
          | none => false) = true
        · simp only [hex, Bool.not_true, Bool.false_and, Bool.false_eq_true, if_false]
          exact ih _ hacc
        · simp only [hex]
          simp only [Bool.not_false, Bool.true_and]
          have hkb : (k == "_id") = false := by
            simp [hid]
          rw [hkb]
          simp only [Bool.not_false, if_pos]
          refine ih _ ?_
          rw [lookupF_assocSet_other _ _ _ _ hid]
          exact hacc

theorem scanHits_cons_hit (s : KVState) (filter : List (String × Value)) (e : IndexEntry)
    (es : List IndexEntry) (seen : List String) (stored : Value)
    (hl : lookupF s.docs e.docId = some stored)
    (hc : (matchesFilter (withOidId stored) filter &&
        !(seen.contains (docIdStr (withOidId stored)))) = true) :
    scanHits s filter (e :: es) seen =
      withOidId stored :: scanHits s filter es (docIdStr (withOidId stored) :: seen) := by
  have h2 : scanHits s filter (e :: es) seen =
      if (matchesFilter (withOidId stored) filter &&
          !(seen.contains (docIdStr (withOidId stored)))) = true then
        withOidId stored :: scanHits s filter es (docIdStr (withOidId stored) :: seen)
      else scanHits s filter es seen := by
    conv_lhs => unfold scanHits
    rw [hl]
  rw [h2, if_pos hc]

theorem mcSimpleOp_gt (v : Option Value) (b : Value) :
    mcSimpleOp "$gt" v b =
      some (if !(isComparable v) || !(isComparableV b) then false
            else (match v with | some w => jsGtB w b | none => false)) := rfl

theorem mcSimpleOp_gte (v : Option Value) (b : Value) :
    mcSimpleOp "$gte" v b =
      some (if !(isComparable v) || !(isComparableV b) then false
            else (match v with | some w => jsGeB w b | none => false)) := rfl

theorem mcSimpleOp_lt (v : Option Value) (b : Value) :
    mcSimpleOp "$lt" v b =
      some (if !(isComparable v) || !(isComparableV b) then false
            else (match v with | some w => jsLtB w b | none => false)) := rfl

theorem mcSimpleOp_lte (v : Option Value) (b : Value) :
    mcSimpleOp "$lte" v b =
      some (if !(isComparable v) || !(isComparableV b) then false
            else (match v with | some w => jsLeB w b | none => false)) := rfl

theorem matchesCondition_obj_nonarr (v : Option Value) (fs : List (String × Value))
    (hna : ∀ xs, v ≠ some (.vArr xs)) :
    matchesCondition v (.vObj fs) = mcEntries v fs := by
  match v with
  | none => simp only [matchesCondition, mcCondObj]
  | some .vNull => simp only [matchesCondition, mcCondObj]
  | some (.vBool x) => simp only [matchesCondition, mcCondObj]
  | some (.vNum x) => simp only [matchesCondition, mcCondObj]
  | some (.vStr x) => simp only [matchesCondition, mcCondObj]
  | some (.vDate x) => simp only [matchesCondition, mcCondObj]
  | some (.vOid x) => simp only [matchesCondition, mcCondObj]
  | some (.vObj gs) => simp only [matchesCondition, mcCondObj]
  | some (.vArr xs) => exact absurd rfl (hna xs)

theorem withOidId_obj (fs : List (String × Value)) (sid : String)
    (h : lookupF fs "_id" = some (.vStr sid)) :
    withOidId (.vObj fs) = .vObj (assocSet fs "_id" (.vOid sid)) := by
  simp only [withOidId, h]

theorem mcEntries_simple (v : Option Value) (op : String) (val : Value) (r : Bool)
    (h : mcSimpleOp op v val = some r) :
    mcEntries v [(op, val)] = r := by
  match v with
  | none => simp only [mcEntries, h, Option.getD_some, Bool.and_true]
  | some .vNull => simp only [mcEntries, h, Option.getD_some, Bool.and_true]
  | some (.vBool x) => simp only [mcEntries, h, Option.getD_some, Bool.and_true]
  | some (.vNum x) => simp only [mcEntries, h, Option.getD_some, Bool.and_true]
  | some (.vStr x) => simp only [mcEntries, h, Option.getD_some, Bool.and_true]
  | some (.vDate x) => simp only [mcEntries, h, Option.getD_some, Bool.and_true]
  | some (.vOid x) => simp only [mcEntries, h, Option.getD_some, Bool.and_true]
  | some (.vObj gs) => simp only [mcEntries, h, Option.getD_some, Bool.and_true]
  | some (.vArr xs) => simp only [mcEntries, h, Option.getD_some, Bool.and_true]

theorem assocSet_assocSet {α : Type} (fs : List (String × α)) (k : String) (a b : α) :
    assocSet (assocSet fs k a) k b = assocSet fs k b := by
  induction fs with
  | nil => simp [assocSet]
  | cons p ps ih =>
      by_cases hk : p.1 = k
      · simp [assocSet, hk]
      · simp [assocSet, hk, ih]

theorem getNestedValue_single (fs : List (String × Value)) (path : String)
    (hsp : splitDot path = [path]) :
    getNestedValue (.vObj fs) path = lookupF fs path := by
  unfold getNestedValue
  rw [hsp]
  simp [truthy, getStep, typeofIsObj, typeofStr, jsGetProp]

theorem projExcludeFold_solo_id (p : ProjVal) :
    ∀ (fs acc : List (String × Value)),
      (∀ q ∈ fs, q.1 ≠ "_id" → lookupF acc q.1 = none) →
      List.Pairwise (fun a b => a.1 ≠ b.1) fs →
      projExcludeFold [("_id", p)] fs acc =
        acc ++ fs.filter (fun q => !(q.1 == "_id")) := by
  intro fs
  induction fs with
  | nil => intro acc _ _; simp [projExcludeFold]
  | cons q qs ih =>
      intro acc hfresh hpw
      obtain ⟨k, v⟩ := q
      unfold projExcludeFold
      by_cases hid : k = "_id"
      · subst hid
        simp only [beq_self_eq_true, Bool.not_true, Bool.and_false, Bool.false_eq_true,
          if_false]
        rw [ih acc (fun q hq hq1 => hfresh q (List.mem_cons_of_mem _ hq) hq1)
          (List.pairwise_cons.mp hpw).2]
        simp [List.filter]
      · have hlp : lookupF [("_id", p)] k = none := by
          simp [lookupF, Ne.symm hid]
        have hkb : (k == "_id") = false := by simp [hid]
        simp only [hlp, hkb, Bool.not_false, Bool.and_true, if_pos]
        have hacc : lookupF acc k = none := hfresh (k, v) (List.mem_cons_self _ _) hid
        rw [assocSet_fresh acc k v hacc]
        rw [ih (acc ++ [(k, v)]) ?_ (List.pairwise_cons.mp hpw).2]
        · simp only [List.filter, hkb, Bool.not_false, List.append_assoc,
            List.singleton_append]
        · intro q hq hq1
          have hqk : k ≠ q.1 := (List.pairwise_cons.mp hpw).1 q hq
          rw [lookupF_append_single_other acc k q.1 v hqk]
          exact hfresh q (List.mem_cons_of_mem _ hq) hq1

/-- C1.  The claim states that insert, update and delete apply the
index-entry deltas in the same atomic batch as the primary write, so that
after a committed deleteOne no index entry references a missing document.
This is false: inserting `{name: "x"}` (with a declared `name` index)
writes the document and its index entry, and the subsequent committed
`deleteOne({_id})` (deletedCount 1) removes only the primary entry — the
`name` index entry survives and now references the id `"a"` of a document
that no longer exists (an orphan). -/
theorem C1_counterexample :
    (insertOne exC1_s0 (.vObj [("name", .vStr "x")]) "a").2 = some "a" ∧
    exC1_s1.indexEntries = [{ field := "name", sval := .ks "x", docId := "a" }] ∧
    deleteOne exC1_s1 [("_id", .vOid "a")] = some (exC1_s2, 1) ∧
    exC1_s2.indexEntries = [{ field := "name", sval := .ks "x", docId := "a" }] ∧
    lookupF exC1_s2.docs "a" = none :=
  ⟨rfl, rfl, rfl, rfl, rfl⟩

/-- C1, amended.  `updateOne` and `deleteOne` apply no index-entry deltas at
all: their atomic batches touch only the primary document entry, so
whatever index entries existed before the write — including entries
referencing a document that `deleteOne` just removed — are still present,
unchanged, afterwards. -/
theorem C1_amended :
    (∀ (s : KVState) (filter : List (String × Value)) (r : KVState × Nat),
        deleteOne s filter = some r → r.1.indexEntries = s.indexEntries) ∧
    (∀ (s : KVState) (filter : List (String × Value)) (u : UpdateOp) (upsert : Bool)
        (genId : String) (r : KVState × UpdRes),
        updateOne s filter u upsert genId = some r →
        r.1.indexEntries = s.indexEntries) := by
  constructor
  · intro s filter r h
    unfold deleteOne at h
    split at h
    · cases h
    · cases h
      rfl
    · cases h
      rfl
  · intro s filter u upsert genId r h
    have hup : ∀ (newId : String), upsertWith s u newId = some r →
        r.1.indexEntries = s.indexEntries := by
      intro newId hw
      unfold upsertWith at hw
      split at hw
      · split at hw
        · cases hw
        · cases hw
          rfl
      · cases hw
    unfold updateOne at h
    split at h
    · cases h
    · split at h
      · split at h
        · split at h
          · exact hup _ h
          · exact hup _ h
        · exact hup _ h
      · cases h
        rfl
    · split at h
      · cases h
        rfl
      · cases h

/-- C1, witness for the amended theorem at the counterexample state. -/
theorem C1_witness : exC1_s2.indexEntries = exC1_s1.indexEntries :=
  C1_amended.1 exC1_s1 [("_id", .vOid "a")] (exC1_s2, 1) rfl

/-- C2.  The claim states the index-backed plan returns every document the
filter matches (the same set as the full scan).  This is false: the range
scan compares serialized values as strings — with an `age` index, the
document with `age` 100 matches `{age: {$gte: 25}}` and the full scan
returns it, but the planned `find` returns the empty list, because
`"100" < "25"` lexicographically excludes the index entry before any
document is fetched. -/
theorem C2_counterexample :
    matchesFilter exC2_doc exC2_filter = true ∧
    findWithoutIndex exC2_s exC2_filter {} = some [exC2_doc] ∧
    find exC2_s exC2_filter {} = some [] := by
  have hm : matchesFilter exC2_doc exC2_filter = true := by
    have hga : getNestedValue (.vObj [("_id", .vOid "a"), ("age", .vNum 100)]) "age"
        = some (.vNum 100) := rfl
    simp only [exC2_doc, exC2_filter, matchesFilter, matchesFilterEntries, mfField, hga,
      matchesCondition, mcCondObj, mcEntries]
    decide
  refine ⟨hm, ?_, ?_⟩
  · unfold findWithoutIndex
    have hmap : exC2_s.docs.map (fun p => withOidId p.2) = [exC2_doc] := rfl
    rw [hmap]
    have hf : [exC2_doc].filter (fun d => matchesFilter d exC2_filter) = [exC2_doc] := by
      simp [List.filter, hm]
    rw [hf]
    exact applyFindOptions_id _
  · rfl

/-- C2, amended.  Only the soundness half holds: every document the index
range scan returns (with default options) is also returned by the full
collection scan — the planned result is a subset of the full scan's, but
(per the counterexample) not conversely. -/
theorem C2_amended :
    ∀ (s : KVState) (field : String) (cond : Value) (filter : List (String × Value))
      (docs : List Value) (d : Value),
      findUsingIndexRange s field cond filter {} = some docs →
      d ∈ docs →
      ∃ full, findWithoutIndex s filter {} = some full ∧ d ∈ full := by
  intro s field cond filter docs d h hd
  simp only [findUsingIndexRange] at h
  rw [applyFindOptions_id] at h
  have hdocs := Option.some.inj h
  subst hdocs
  refine ⟨(s.docs.map (fun p => withOidId p.2)).filter (fun x => matchesFilter x filter),
    ?_, ?_⟩
  · unfold findWithoutIndex
    rw [applyFindOptions_id]
  · exact scanHits_sub s filter _ _ d hd

/-- C2, witness for the amended theorem: with `{age: {$gte: 10}}` the range
scan keeps the entry (`"100" ≥ "10"` as strings) and returns the document,
which the full scan then also returns. -/
theorem C2_witness :
    ∃ full, findWithoutIndex exC2_s exC2_filter10 {} = some full ∧ exC2_doc ∈ full := by
  have hm10 : (matchesFilter (withOidId (.vObj [("_id", .vStr "a"), ("age", .vNum 100)]))
      exC2_filter10 &&
      !(([] : List String).contains
        (docIdStr (withOidId (.vObj [("_id", .vStr "a"), ("age", .vNum 100)]))))) = true := by
    have hw : withOidId (.vObj [("_id", .vStr "a"), ("age", .vNum 100)])
        = .vObj [("_id", .vOid "a"), ("age", .vNum 100)] := rfl
    rw [hw]
    have hga : getNestedValue (.vObj [("_id", .vOid "a"), ("age", .vNum 100)]) "age"
        = some (.vNum 100) := rfl
    simp only [exC2_filter10, matchesFilter, matchesFilterEntries, mfField, hga,
      matchesCondition, mcCondObj, mcEntries]
    decide
  have h1 : findUsingIndexRange exC2_s "age" (.vObj [("$gte", .vNum 10)]) exC2_filter10 {}
      = some [exC2_doc] := by
    simp only [findUsingIndexRange]
    have hhits : (exC2_s.indexEntries.filter (fun e => e.field == "age")).filter
        (rangeEntryMatches (.vObj [("$gte", .vNum 10)]))
        = [{ field := "age", sval := .kn 100, docId := "a" }] := rfl
    rw [hhits]
    rw [scanHits_cons_hit exC2_s exC2_filter10
      { field := "age", sval := .kn 100, docId := "a" } [] []
      (.vObj [("_id", .vStr "a"), ("age", .vNum 100)]) rfl hm10]
    rw [applyFindOptions_id]
    rfl
  exact C2_amended exC2_s "age" (.vObj [("$gte", .vNum 10)]) exC2_filter10 [exC2_doc]
    exC2_doc h1 (List.mem_singleton.mpr rfl)

/-- C3.  The claim (and the spec) say `$unset` of a path that does not
resolve is a no-op.  On the document `{_id, a: 1}` the path `"b.a"` does
not resolve, yet the `$unset` branch removes the top-level field `"a"`: its
walk `break`s at the missing intermediate `"b"` without skipping the
delete, so the delete of the final part runs against the document root
(the `utils.deleteNestedField` helper in the same file returns instead,
which is the intended behavior the spec describes). -/
theorem C3_bug_eval :
    getNestedValue exC3_doc "b.a" = none ∧
    applyUpdateOperators exC3_doc { uunset := ["b.a"] } =
      some (.vObj [("_id", .vOid "x")]) :=
  ⟨rfl, rfl⟩

/-- C4.  The claim states ordered operators never match across kinds, a
number versus a string in particular.  This is false: `typeof 5` differs
from `typeof "3"`, yet `{$gt: "3"}` matches the value 5 — both operands
individually pass the number/string/date `isComparable` test and the
JavaScript `>` coerces the string to a number. -/
theorem C4_counterexample :
    typeofStr (.vNum 5) ≠ typeofStr (.vStr "3") ∧
    matchesCondition (some (.vNum 5)) (.vObj [("$gt", .vStr "3")]) = true := by
  constructor
  · decide
  · simp only [matchesCondition, mcCondObj, mcEntries]
    decide

/-- C4, amended.  The `isComparable` guard tests each operand individually
for number/string/date: whenever the field value (non-array, so no
fan-out applies) or the operand is of a non-comparable kind (boolean,
null, object, array, ObjectId, undefined), `$gt`/`$gte`/`$lt`/`$lte`
evaluate to false.  Between the comparable kinds themselves, matching
follows the coercing JavaScript comparison (see the counterexample), not
kind equality. -/
theorem C4_amended :
    ∀ (v : Option Value) (b : Value) (op : String),
      (op = "$gt" ∨ op = "$gte" ∨ op = "$lt" ∨ op = "$lte") →
      (∀ xs, v ≠ some (.vArr xs)) →
      (isComparable v = false ∨ isComparableV b = false) →
      matchesCondition v (.vObj [(op, b)]) = false := by
  intro v b op hop hna hinc
  rw [matchesCondition_obj_nonarr v [(op, b)] hna]
  have hval : mcSimpleOp op v b = some false := by
    rcases hop with hop | hop | hop | hop <;> subst hop
    · rw [mcSimpleOp_gt]
      rcases hinc with h | h <;> simp [h]
    · rw [mcSimpleOp_gte]
      rcases hinc with h | h <;> simp [h]
    · rw [mcSimpleOp_lt]
      rcases hinc with h | h <;> simp [h]
    · rw [mcSimpleOp_lte]
      rcases hinc with h | h <;> simp [h]
  exact mcEntries_simple v op b false hval

/-- C4, witness: a number is never `$gt` a boolean (the boolean operand
fails the comparability test). -/
theorem C4_witness :
    matchesCondition (some (.vNum 5)) (.vObj [("$gt", .vBool true)]) = false :=
  C4_amended (some (.vNum 5)) (.vBool true) "$gt" (Or.inl rfl)
    (fun xs h => Value.noConfusion (Option.some.inj h)) (Or.inr rfl)

/-- C5.  The claim states `$push` with a `{$each: [...]}` operand appends
the listed elements, and in particular `$each: []` leaves the array
unchanged.  This is false: the `$push` branch never inspects `$each` — it
appends the operand mapping itself, so `{t: [1]}` becomes
`{t: [1, {$each: []}]}`, a changed array. -/
theorem C5_counterexample :
    applyUpdateOperators exC5_doc { upush := [("t", exC5_each)] } =
      some (.vObj [("_id", .vOid "x"), ("t", .vArr [.vNum 1, exC5_each])]) ∧
    Value.vArr [.vNum 1, exC5_each] ≠ Value.vArr [.vNum 1] := by
  refine ⟨rfl, ?_⟩
  intro h
  simp at h

/-- C5, amended.  `$push` appends its operand as a single element (the
`$each`/modifier forms are not recognized): on a top-level field holding an
array the operand is appended; on any other current value (absent
included) the field is set to the one-element array holding the operand. -/
theorem C5_amended :
    ∀ (fs : List (String × Value)) (path : String) (v : Value),
      splitDot path = [path] →
      ((∀ a, lookupF fs path = some (.vArr a) →
          applyPushOne (.vObj fs) path v =
            some (.vObj (assocSet fs path (.vArr (a ++ [v]))))) ∧
       ((∀ a, lookupF fs path ≠ some (.vArr a)) →
          applyPushOne (.vObj fs) path v =
            some (.vObj (assocSet fs path (.vArr [v]))))) := by
  intro fs path v hsp
  have hget : getNestedValue (.vObj fs) path = lookupF fs path := by
    unfold getNestedValue
    rw [hsp]
    simp [truthy, getStep, typeofIsObj, typeofStr, jsGetProp]
  constructor
  · intro a ha
    unfold applyPushOne
    rw [hget, ha]
    have hfan : fanOnPath (some (.vObj fs)) (splitDot path) = false := by
      rw [hsp]
      rfl
    rw [hfan]
    simp only [Bool.false_eq_true, if_false]
    rw [hsp]
    simp only [replaceAt, ha]
    rfl
  · intro ha
    unfold applyPushOne
    rw [hget]
    cases hl : lookupF fs path with
    | none =>
        rw [hsp]
        simp [setNested, jsSetProp]
    | some w =>
        cases w with
        | vArr a => exact absurd hl (ha a)
        | vNull => rw [hsp]; simp [setNested, jsSetProp]
        | vBool b => rw [hsp]; simp [setNested, jsSetProp]
        | vNum n => rw [hsp]; simp [setNested, jsSetProp]
        | vStr t => rw [hsp]; simp [setNested, jsSetProp]
        | vDate ms => rw [hsp]; simp [setNested, jsSetProp]
        | vOid i => rw [hsp]; simp [setNested, jsSetProp]
        | vObj gs => rw [hsp]; simp [setNested, jsSetProp]

/-- C5, witness: pushing `{$each: []}` onto `t: [1]` at the single-segment
path `"t"` appends the operand itself. -/
theorem C5_witness :
    applyPushOne (.vObj [("_id", .vOid "x"), ("t", .vArr [.vNum 1])]) "t" exC5_each =
      some (.vObj (assocSet [("_id", .vOid "x"), ("t", .vArr [.vNum 1])] "t"
        (.vArr ([.vNum 1] ++ [exC5_each])))) :=
  (C5_amended [("_id", .vOid "x"), ("t", .vArr [.vNum 1])] "t" exC5_each rfl).1
    [.vNum 1] rfl

/-- C6.  The claim states `dropIndex(name)` deletes the metadata entry and
every index entry of the dropped index.  This is false: on a state with a
declared `age` index and one `age` index entry, `dropIndex("age_1")`
removes only the metadata — the index entry is still in the store. -/
theorem C6_counterexample :
    dropIndex exC6_s "age_1" =
      { docs := exC6_s.docs, indexMeta := [],
        indexEntries := [{ field := "age", sval := .kn 30, docId := "a" }] } ∧
    (dropIndex exC6_s "age_1").indexEntries ≠ [] := by
  refine ⟨rfl, ?_⟩
  intro h
  simp [dropIndex, exC6_s] at h

/-- C6, amended.  `dropIndex(name)` deletes exactly the metadata entry
`("__indexes__", collection, name)`: the documents and every index entry
(of this and of every other index) are untouched. -/
theorem C6_amended :
    ∀ (s : KVState) (name : String),
      (dropIndex s name).indexMeta = s.indexMeta.filter (fun p => !(p.1 == name)) ∧
      (dropIndex s name).indexEntries = s.indexEntries ∧
      (dropIndex s name).docs = s.docs :=
  fun s name => ⟨rfl, rfl, rfl⟩

/-- C7.  Confirmed: when the planner finds no candidate and upsert is
requested, `updateOne` synthesizes a document from `{_id}` (the filter's
`_id` when present, else the freshly generated id), applies the update
operators to it, inserts it fresh, and reports matchedCount 0,
modifiedCount 1 and upsertedId the new id; a subsequent `findOne` on that
id returns the stored document (its `_id` revived as an ObjectId). -/
theorem C7_upsert :
    ∀ (s : KVState) (filter : List (String × Value)) (u : UpdateOp) (genId newId : String)
      (newDoc : Value),
      findOne s filter {} = some none →
      (lookupF filter "_id" = some (.vOid newId) ∨
        (lookupF filter "_id" = none ∧ genId = newId)) →
      applyUpdateOperators (.vObj [("_id", .vOid newId)]) u = some newDoc →
      lookupF s.docs newId = none →
      ∃ s2, updateOne s filter u true genId = some (s2, ⟨0, 1, some newId, 1⟩) ∧
        findOne s2 [("_id", .vOid newId)] {} = some (some (setIdOid newDoc newId)) := by
  intro s filter u genId newId newDoc hfo hid happ hfresh
  obtain ⟨gs, hgs⟩ := applyUpdateOperators_obj [("_id", .vOid newId)] u newDoc happ
  have hup : upsertWith s u newId =
      some ({ s with docs := s.docs ++ [(newId, setIdStr newDoc newId)] },
        ⟨0, 1, some newId, 1⟩) := by
    unfold upsertWith
    simp only [happ, hfresh]
  refine ⟨{ s with docs := s.docs ++ [(newId, setIdStr newDoc newId)] }, ?_, ?_⟩
  · have hred : updateOne s filter u true genId =
        (match lookupF filter "_id" with
         | some v => if truthy v then upsertWith s u (jsToString v)
                     else upsertWith s u genId
         | none => upsertWith s u genId) := by
      unfold updateOne
      rw [hfo]
      rfl
    rw [hred]
    rcases hid with hid | ⟨hid, hgen⟩
    · rw [hid]
      exact hup
    · subst hgen
      rw [hid]
      exact hup
  · have hstep : findOne { s with docs := s.docs ++ [(newId, setIdStr newDoc newId)] }
        [("_id", .vOid newId)] {} =
        some ((lookupF (s.docs ++ [(newId, setIdStr newDoc newId)]) newId).map withOidId) :=
      rfl
    rw [hstep, lookupF_append_fresh s.docs newId (setIdStr newDoc newId) hfresh]
    subst hgs
    show some (some (withOidId (setIdStr (.vObj gs) newId))) =
      some (some (setIdOid (.vObj gs) newId))
    have h1 : withOidId (setIdStr (.vObj gs) newId) = setIdOid (.vObj gs) newId := by
      show withOidId (.vObj (assocSet gs "_id" (.vStr newId)))
        = .vObj (assocSet gs "_id" (.vOid newId))
      rw [withOidId_obj (assocSet gs "_id" (.vStr newId)) newId
        (lookupF_assocSet_self gs "_id" (.vStr newId))]
      rw [assocSet_assocSet]
    rw [h1]

/-- C7, witness: upserting `{_id: ObjectId("aa")}` with `{$set: {x: 1}}`
into the empty collection stores `{_id: "aa", x: 1}` and `findOne` then
returns it with the ObjectId revived. -/
theorem C7_witness :
    ∃ s2, updateOne {} [("_id", .vOid "aa")] exC7_u true "zz" =
        some (s2, ⟨0, 1, some "aa", 1⟩) ∧
      findOne s2 [("_id", .vOid "aa")] {} = some (some (setIdOid exC7_newDoc "aa")) :=
  C7_upsert {} [("_id", .vOid "aa")] exC7_u "zz" "aa" exC7_newDoc rfl (Or.inl rfl) rfl rfl

/-- C8.  The claim states `{_id: 0}` removes `_id` (in include mode) and
that a sole `{_id: 0}` projection returns the remaining fields without
`_id`.  Both are false: include mode treats the `_id` entry as always
included regardless of its value (the `value === 1 || path === "_id"`
test), and a sole `{_id: 0}` runs exclude mode, whose result starts from
`{_id: doc._id}` and skips only non-`_id` keys — `_id` is present in both
results. -/
theorem C8_counterexample :
    applyProjection exC8_doc [("x", .pnum 1), ("_id", .pnum 0)] =
      .ok (.vObj [("_id", .vOid "a"), ("x", .vNum 1)]) ∧
    applyProjection exC8_doc [("_id", .pnum 0)] =
      .ok (.vObj [("_id", .vOid "a"), ("x", .vNum 1)]) ∧
    lookupF ([("_id", .vOid "a"), ("x", .vNum 1)] : List (String × Value)) "_id"
      = some (.vOid "a") :=
  ⟨rfl, rfl, rfl⟩

/-- C8, amended.  (i) Mixing strict `1` and strict `0` on non-`_id` keys is
the mixed-mode error.  (ii) Any successful projection keeps `_id`
(projection paths into `_id` aside): the result's `_id` is the
document's — `{_id: 0}` never removes it.  (iii) A projection of solely
`{_id: p}` (any non-including `p`, `0` included) runs exclude mode and
returns the whole document unchanged — all remaining fields AND `_id`. -/
theorem C8_amended :
    (∀ (doc : Value) (proj : List (String × ProjVal)),
        (!((proj.filter (fun p => !(p.1 == "_id"))).map (fun p => p.2)).isEmpty &&
            ((proj.filter (fun p => !(p.1 == "_id"))).map (fun p => p.2)).any projIsOne &&
            ((proj.filter (fun p => !(p.1 == "_id"))).map (fun p => p.2)).any projIsZero)
          = true →
        applyProjection doc proj = .mixError) ∧
    (∀ (doc idv : Value) (proj : List (String × ProjVal)) (fs2 : List (String × Value)),
        jsGetProp doc "_id" = some idv →
        (∀ pr ∈ proj, headPart pr.1 = "_id" → pr.1 = "_id") →
        applyProjection doc proj = .ok (.vObj fs2) →
        lookupF fs2 "_id" = some idv) ∧
    (∀ (idv : Value) (rest : List (String × Value)) (p : ProjVal),
        (∀ q ∈ rest, q.1 ≠ "_id") →
        List.Pairwise (fun a b => a.1 ≠ b.1) (("_id", idv) :: rest) →
        applyProjection (.vObj (("_id", idv) :: rest)) [("_id", p)] =
          .ok (.vObj (("_id", idv) :: rest))) := by
  refine ⟨?_, ?_, ?_⟩
  · intro doc proj hmix
    cases proj with
    | nil => simp at hmix
    | cons q qs =>
        unfold applyProjection
        simp only [List.isEmpty_cons, Bool.false_eq_true, if_false]
        rw [if_pos hmix]
  · intro doc idv proj fs2 hdoc hh happ
    cases doc with
    | vNull => exact Option.noConfusion hdoc
    | vBool b => exact Option.noConfusion hdoc
    | vNum n => exact Option.noConfusion hdoc
    | vStr t => exact Option.noConfusion hdoc
    | vDate ms => exact Option.noConfusion hdoc
    | vOid i => exact Option.noConfusion hdoc
    | vArr xs => exact Option.noConfusion hdoc
    | vObj fs =>
        have hlk : lookupF fs "_id" = some idv := hdoc
        have hgn : getNestedValue (.vObj fs) "_id" = some idv := by
          rw [getNestedValue_single fs "_id" rfl]
          exact hlk
        cases proj with
        | nil =>
            have h2 : ProjResult.ok (Value.vObj fs) = ProjResult.ok (.vObj fs2) := happ
            injection h2 with h1
            injection h1 with h3
            rw [← h3]
            exact hlk
        | cons q qs =>
            unfold applyProjection at happ
            simp only [List.isEmpty_cons, Bool.false_eq_true, if_false, hdoc] at happ
            split at happ
            · exact ProjResult.noConfusion happ
            · split at happ
              · split at happ
                · rename_i fs3 hpi
                  injection happ with h1
                  injection h1 with h3
                  rw [← h3]
                  exact projIncludeFold_keep (.vObj fs) idv hgn (q :: qs)
                    [("_id", idv)] fs3 hh rfl hpi
                · exact ProjResult.noConfusion happ
              · injection happ with h1
                injection h1 with h3
                rw [← h3]
                exact projExcludeFold_keep (q :: qs) idv fs [("_id", idv)] rfl
  · intro idv rest p hrest hpw
    have hfr : ∀ q ∈ ("_id", idv) :: rest, q.1 ≠ "_id" →
        lookupF [("_id", idv)] q.1 = none := by
      intro q hq hq1
      simp [lookupF, Ne.symm hq1]
    show ProjResult.ok (.vObj (projExcludeFold [("_id", p)] (("_id", idv) :: rest)
        [("_id", idv)])) = .ok (.vObj (("_id", idv) :: rest))
    rw [projExcludeFold_solo_id p (("_id", idv) :: rest) [("_id", idv)] hfr hpw]
    have hfil : (("_id", idv) :: rest).filter (fun q => !(q.1 == "_id")) = rest := by
      simp only [List.filter, beq_self_eq_true, Bool.not_true]
      exact List.filter_eq_self.mpr (fun q hq => by simp [hrest q hq])
    rw [hfil]
    rfl

/-- C8, witness: solely `{_id: 0}` on `{_id, x: 1}` returns the document
unchanged — `_id` included. -/
theorem C8_witness :
    applyProjection (.vObj [("_id", .vOid "a"), ("x", .vNum 1)]) [("_id", .pnum 0)] =
      .ok (.vObj [("_id", .vOid "a"), ("x", .vNum 1)]) :=
  C8_amended.2.2 (.vOid "a") [("x", .vNum 1)] (.pnum 0) (by decide) (by decide)

/-- C9.  The claim states `estimatedDocumentCount` returns the number of
documents (not counting index entries), equalling `countDocuments({})`.
This is false: its prefix scan counts every entry under the collection
prefix, index entries included — on one document with one index entry it
returns 2 while `countDocuments({})` returns 1. -/
theorem C9_counterexample :
    estimatedDocumentCount exC9_s = 2 ∧ countDocuments exC9_s [] {} = some 1 :=
  ⟨rfl, rfl⟩

/-- C9, amended.  `estimatedDocumentCount` counts the documents plus every
index entry stored under the collection prefix; `countDocuments({})`
counts exactly the documents, so the two agree exactly when no index
entries exist. -/
theorem C9_amended :
    ∀ s : KVState,
      estimatedDocumentCount s = s.docs.length + s.indexEntries.length ∧
      countDocuments s [] {} = some ((s.docs.length : Int)) ∧
      countDocuments s [] {} =
        some ((estimatedDocumentCount s : Int) - (s.indexEntries.length : Int)) := by
  intro s
  have hc : countDocuments s [] {} = some ((s.docs.length : Int)) := by
    unfold countDocuments
    simp only [Option.map]
    unfold find
    rw [findUsableIndex_empty]
    unfold findWithoutIndex
    rw [filter_matchesFilter_nil, applyFindOptions_id]
    simp
  refine ⟨rfl, hc, ?_⟩
  rw [hc]
  unfold estimatedDocumentCount
  congr 1
  push_cast
  ring

/-- C10.  A filter whose `_id` entry is an ObjectId instance makes
`findOne` a direct key lookup: the stored document with that id is
returned (null when absent) and no other filter entry — nor any option —
is ever evaluated. -/
theorem C10_findOne_id :
    ∀ (s : KVState) (filter : List (String × Value)) (opts : FindOpts) (i : String),
      lookupF filter "_id" = some (.vOid i) →
      findOne s filter opts = some ((lookupF s.docs i).map withOidId) := by
  intro s filter opts i h
  unfold findOne
  rw [h]

/-- C10, witness: `findOne({_id: "a", name: "y"})` returns the stored
document whose `name` is `"z"` — the document does not satisfy the filter's
`name` clause. -/
theorem C10_witness :
    lookupF exC10_filter "_id" = some (.vOid "a") ∧
    findOne exC10_s exC10_filter {} =
      some (some (.vObj [("_id", .vOid "a"), ("name", .vStr "z")])) ∧
    matchesFilter (.vObj [("_id", .vOid "a"), ("name", .vStr "z")]) exC10_filter = false := by
  refine ⟨rfl, ?_, ?_⟩
  · rw [C10_findOne_id exC10_s exC10_filter {} "a" rfl]
    rfl
  · have hg : getNestedValue (.vObj [("_id", .vOid "a"), ("name", .vStr "z")]) "name"
        = some (.vStr "z") := rfl
    have hg2 : getNestedValue (.vObj [("_id", .vOid "a"), ("name", .vStr "z")]) "_id"
        = some (.vOid "a") := rfl
    simp only [exC10_filter, matchesFilter, matchesFilterEntries, mfField, hg, hg2,
      matchesCondition, mcCondObj, mcEntries]
    decide
